import Mathlib

/-!
Verification of the vtpy VT100 terminal protocol engine
(`vtpy/terminal.py`, class `Terminal`).

The engine is shallowly embedded: bytes are `Nat`, byte strings are
`List Nat`, and the mutable instance attributes of `Terminal` become the
fields of `TermState`.  The serial interface is modelled by two pieces of
state: `tape`, the sequence of results of successive `interface.read()`
calls (`some b` = a byte arrived, `none` = an empty read / read timeout;
an exhausted tape means every further read is empty), and `out`, the
sequence of bytes written so far through `interface.write`.  Wall-clock
time inside `_recvResponseImpl` is abstracted by counting interface
reads: the Python test `timeout and (time.time() - start) > timeout`
becomes `ht && reads > dl`, where `ht` says a timeout was given and `dl`
is the number of reads after which the budget is exceeded.  Unbounded
`while True:` loops take a fuel parameter; a `none` result means the
fuel ran out (in particular, a loop that never returns yields `none`
for every fuel).  The Python `AttributeError` raised by reading
`self.lastMode` before any save-cursor command is modelled by storing
`lastMode : Option _` initialised to `none` and letting `sendCommand`
return `none` when the attribute is read while absent.
-/

/-- The escape introducer byte `\x1B`. -/
def ESCb : Nat := 27

/-- `"(A"` -/
def G0_UK_CHARSET : List Nat := [40, 65]
/-- `"(B"` -/
def G0_US_CHARSET : List Nat := [40, 66]
/-- `"(0"` -/
def G0_BOX_CHARSET : List Nat := [40, 48]
/-- `")A"` -/
def G1_UK_CHARSET : List Nat := [41, 65]
/-- `")B"` -/
def G1_US_CHARSET : List Nat := [41, 66]
/-- `")0"` -/
def G1_BOX_CHARSET : List Nat := [41, 48]

/-- `"[5n"` -/
def REQUEST_STATUS : List Nat := [91, 53, 110]
/-- `"[0n"` -/
def STATUS_OKAY : List Nat := [91, 48, 110]
/-- `"[6n"` -/
def REQUEST_CURSOR : List Nat := [91, 54, 110]

/-- `"[H"` -/
def MOVE_CURSOR_ORIGIN : List Nat := [91, 72]
/-- `"M"` -/
def MOVE_CURSOR_UP : List Nat := [77]
/-- `"D"` -/
def MOVE_CURSOR_DOWN : List Nat := [68]

/-- `"[1J"` -/
def CLEAR_TO_ORIGIN : List Nat := [91, 49, 74]
/-- `"[0K"` -/
def CLEAR_TO_END_OF_LINE : List Nat := [91, 48, 75]
/-- `"[2J"` -/
def CLEAR_SCREEN : List Nat := [91, 50, 74]
/-- `"[2K"` -/
def CLEAR_LINE : List Nat := [91, 50, 75]

/-- `"[?3h"` -/
def SET_132_COLUMNS : List Nat := [91, 63, 51, 104]
/-- `"[?3l"` -/
def SET_80_COLUMNS : List Nat := [91, 63, 51, 108]

/-- `"[?6h"` -/
def TURN_ON_REGION : List Nat := [91, 63, 54, 104]
/-- `"[?6l"` -/
def TURN_OFF_REGION : List Nat := [91, 63, 54, 108]

/-- `"[?7h"` -/
def TURN_ON_AUTOWRAP : List Nat := [91, 63, 55, 104]
/-- `"[?7l"` -/
def TURN_OFF_AUTOWRAP : List Nat := [91, 63, 55, 108]

/-- `"[1m"` -/
def SET_BOLD : List Nat := [91, 49, 109]
/-- `"[0m"` -/
def SET_NORMAL : List Nat := [91, 48, 109]
/-- `"[4m"` -/
def SET_UNDERLINE : List Nat := [91, 52, 109]
/-- `"[7m"` -/
def SET_REVERSE : List Nat := [91, 55, 109]

/-- `"7"` -/
def SAVE_CURSOR : List Nat := [55]
/-- `"8"` -/
def RESTORE_CURSOR : List Nat := [56]

/-- `"#3"` -/
def DOUBLE_HEIGHT_TOP : List Nat := [35, 51]
/-- `"#4"` -/
def DOUBLE_HEIGHT_BOTTOM : List Nat := [35, 52]
/-- `"#6"` -/
def DOUBLE_WIDTH : List Nat := [35, 54]
/-- `"#5"` -/
def NORMAL_SIZE : List Nat := [35, 53]

/-- `"[A"`, the up-arrow frame body. -/
def ARROW_UP : List Nat := [91, 65]
/-- `"[B"`, the down-arrow frame body. -/
def ARROW_DOWN : List Nat := [91, 66]
/-- `"[D"`, the left-arrow frame body. -/
def ARROW_LEFT : List Nat := [91, 68]
/-- `"[C"`, the right-arrow frame body. -/
def ARROW_RIGHT : List Nat := [91, 67]

/-- `"[1;24r"`, the literal scroll-region command emitted by `reset`. -/
def SET_REGION_1_24 : List Nat := [91, 49, 59, 50, 52, 114]

/-- The mutable state of one `Terminal` instance, together with the
modelled interface: `tape` is the remaining sequence of
`interface.read()` results and `out` the bytes written so far. -/
structure TermState where
  leftover : List Nat
  pending : List (List Nat)
  responses : List (List Nat)
  tape : List (Option Nat)
  out : List Nat
  reversed : Bool
  bolded : Bool
  underlined : Bool
  autowrap : Bool
  boxMode : Bool
  columns : Nat
  rows : Nat
  cursor : Int × Int
  lastModes : Bool × Bool × Bool × Bool
  lastMode : Option (Bool × Bool × Bool × Bool)
deriving DecidableEq, Repr

/-- The attribute values established by `Terminal.__init__` before
`reset()` runs (interface state empty).  In particular the constructor
initialises `lastModes`, not `lastMode`, so `lastMode` is absent
(`none`). -/
def initTermState : TermState :=
  { leftover := [], pending := [], responses := [], tape := [], out := []
    reversed := false, bolded := false, underlined := false
    autowrap := false, boxMode := false
    columns := 80, rows := 24, cursor := (-1, -1)
    lastModes := (false, false, false, false), lastMode := none }

/-- `Terminal.sendCommand`: write the escape introducer, update the
tracked state according to the command, invalidate the cursor cache
unless the command is known not to move the cursor, then write the
command bytes.  A `none` result models the uncaught `AttributeError`
raised when the restore-cursor branch reads `self.lastMode` before any
save-cursor command has assigned it. -/
def sendCommand (st : TermState) (cmd : List Nat) : Option TermState :=
  let st1 := { st with out := st.out ++ [ESCb] }
  let step : Option (TermState × Bool) :=
    if cmd = SET_NORMAL then
      some ({ st1 with reversed := false, bolded := false, underlined := false }, false)
    else if cmd = SET_REVERSE then some ({ st1 with reversed := true }, false)
    else if cmd = SET_BOLD then some ({ st1 with bolded := true }, false)
    else if cmd = SET_UNDERLINE then some ({ st1 with underlined := true }, false)
    else if cmd = SET_132_COLUMNS then some ({ st1 with columns := 132 }, true)
    else if cmd = SET_80_COLUMNS then some ({ st1 with columns := 80 }, true)
    else if cmd = TURN_OFF_AUTOWRAP then some ({ st1 with autowrap := false }, false)
    else if cmd = TURN_ON_AUTOWRAP then some ({ st1 with autowrap := true }, false)
    else if cmd = G0_UK_CHARSET ∨ cmd = G0_US_CHARSET ∨ cmd = G0_BOX_CHARSET ∨
        cmd = G1_UK_CHARSET ∨ cmd = G1_US_CHARSET ∨ cmd = G1_BOX_CHARSET ∨
        cmd = TURN_ON_REGION ∨ cmd = TURN_OFF_REGION ∨ cmd = DOUBLE_HEIGHT_TOP ∨
        cmd = DOUBLE_HEIGHT_BOTTOM ∨ cmd = DOUBLE_WIDTH ∨ cmd = NORMAL_SIZE ∨
        cmd = REQUEST_STATUS ∨ cmd = REQUEST_CURSOR then
      some (st1, false)
    else if cmd = SAVE_CURSOR then
      some ({ st1 with
        lastMode := some (st1.bolded, st1.underlined, st1.reversed, st1.boxMode) }, false)
    else if cmd = RESTORE_CURSOR then
      match st1.lastMode with
      | none => none
      | some (b, u, r, bm) =>
        some ({ st1 with bolded := b, underlined := u, reversed := r, boxMode := bm }, true)
    else some (st1, true)
  match step with
  | none => none
  | some (s, rst) =>
    let s2 := if rst then { s with cursor := (-1, -1) } else s
    some { s2 with out := s2.out ++ cmd }

/-- Decimal digit bytes of a natural number, most significant first,
modelling Python's `f"{n}"` for nonnegative `n`. -/
def natDigits (n : Nat) : List Nat :=
  if h : n < 10 then [48 + n]
  else natDigits (n / 10) ++ [48 + n % 10]
decreasing_by exact Nat.div_lt_self (by omega) (by omega)

/-- The bytes of the Python f-string `f"[{row};{col}H"` for in-range
(hence nonnegative) coordinates. -/
def moveFmt (row col : Int) : List Nat :=
  [91] ++ natDigits row.toNat ++ [59] ++ natDigits col.toNat ++ [72]

/-- `Terminal.moveCursor`: silently ignore out-of-range targets,
otherwise emit the cursor-position command and record the exact target
in the cursor cache. -/
def moveCursor (st : TermState) (row col : Int) : Option TermState :=
  if row < 1 ∨ row > (st.rows : Int) then some st
  else if col < 1 ∨ col > (st.columns : Int) then some st
  else (sendCommand st (moveFmt row col)).map fun s => { s with cursor := (row, col) }

/-- `Terminal.setAutoWrap`: emit the toggle command only when the
tracked flag differs from the requested value. -/
def setAutoWrap (st : TermState) (v : Bool) : Option TermState :=
  if !st.autowrap && v then sendCommand st TURN_ON_AUTOWRAP
  else if st.autowrap && !v then sendCommand st TURN_OFF_AUTOWRAP
  else some st

/-- `Terminal.reset`: the fixed command sequence, then the raw `\x0F`
(shift-in) byte and clearing of the tracked box mode. -/
def resetT (st : TermState) : Option TermState :=
  (sendCommand st SET_80_COLUMNS).bind fun st =>
  (sendCommand st SET_REGION_1_24).bind fun st =>
  (sendCommand st TURN_OFF_REGION).bind fun st =>
  (sendCommand st CLEAR_SCREEN).bind fun st =>
  (sendCommand st MOVE_CURSOR_ORIGIN).bind fun st =>
  (sendCommand st SET_NORMAL).bind fun st =>
  (sendCommand st G0_US_CHARSET).bind fun st =>
  (sendCommand st G1_BOX_CHARSET).bind fun st =>
  (sendCommand st TURN_OFF_AUTOWRAP).bind fun st =>
  some { st with out := st.out ++ [15], boxMode := false }

/-- The continuation set of a response frame: `{0..9, ';', '?', '['}`. -/
def contB (c : Nat) : Bool :=
  (decide (48 ≤ c) && decide (c ≤ 57)) || c == 59 || c == 63 || c == 91

/-- Membership in `{UP, DOWN, LEFT, RIGHT}` as tested by
`Terminal._recvResponse`. -/
def isArrow (r : List Nat) : Bool :=
  r == ARROW_UP || r == ARROW_DOWN || r == ARROW_LEFT || r == ARROW_RIGHT

/-- `Terminal._recvResponseImpl`: one call of the framing loop.  `accum`,
`got` and `reads` are the loop-local `accum`, `gotResponse` and the
count of interface reads performed so far (standing in for elapsed
time); `ht` is the truthiness of `timeout` and `dl` the number of reads
after which `(time.time() - start) > timeout` holds.  One fuel unit is
one iteration of the `while True:` loop; `none` means the fuel ran out
before the function returned. -/
def recvImpl (ht : Bool) (dl : Nat) :
    Nat → TermState → List Nat → Bool → Nat → Option (List Nat × TermState)
  | 0, _, _, _, _ => none
  | fuel + 1, st, accum, got, reads =>
    match st.leftover with
    | b :: rest => recvImpl ht dl fuel { st with leftover := rest } (accum ++ [b]) true reads
    | [] =>
      match st.tape with
      | some b :: ts =>
        recvImpl ht dl fuel { st with tape := ts } (accum ++ [b]) true (reads + 1)
      | tl =>
        -- An empty read: either the head of the tape is `none` (consumed
        -- below) or the tape is exhausted and every read is empty.
        let reads' := reads + 1
        if got || (ht && decide (dl < reads')) then
          let p := accum.takeWhile (fun c => c != 27)
          let r := accum.dropWhile (fun c => c != 27)
          let stp := { st with
            tape := tl.tail
            pending := st.pending ++ p.map (fun b => [b]) }
          match r with
          | 27 :: body =>
            match body.findIdx? (fun c => !contB c) with
            | some i =>
              some (body.take (i + 1),
                { stp with leftover := stp.leftover ++ body.drop (i + 1) })
            | none =>
              recvImpl ht dl fuel
                { stp with leftover := stp.leftover ++ 27 :: body } [] got reads'
          | _ =>
            if ht then some ([], stp)
            else recvImpl ht dl fuel stp [] false reads'
        else recvImpl ht dl fuel { st with tape := tl.tail } accum got reads'

/-- `Terminal._recvResponse`: repeat `_recvResponseImpl`, diverting
arrow-key frames into the pending-input queue instead of returning
them.  The outer `while True:` loop gets its own fuel. -/
def recvResp (fI : Nat) (ht : Bool) (dl : Nat) :
    Nat → TermState → Option (List Nat × TermState)
  | 0, _ => none
  | fuel + 1, st =>
    match recvImpl ht dl fI st [] false 0 with
    | none => none
    | some (r, st') =>
      if isArrow r then recvResp fI ht dl fuel { st' with pending := st'.pending ++ [r] }
      else some (r, st')

/-- `Terminal.recvResponse`: drain the parsed-responses queue first,
else pump `_recvResponse` once. -/
def recvResponse (fO fI : Nat) (ht : Bool) (dl : Nat) (st : TermState) :
    Option (List Nat × TermState) :=
  match st.responses with
  | r :: rs => some (r, { st with responses := rs })
  | [] => recvResp fI ht dl fO st

/-- `Terminal.peekInput`: the head of the pending queue, unremoved. -/
def peekInput (st : TermState) : Option (List Nat) :=
  st.pending.head?

/-- `Terminal.recvInput`: pump `_recvResponse` with a short timeout when
no input is pending (queueing any genuine response), then pop and
return the head of the pending queue.  The wall-clock-gated liveness
probe (`now - lastPolled > CHECK_INTERVAL`) is modelled in the regime
where it is not due, i.e. calls happening within the polling interval
of the last activity; the probe is orthogonal to input routing. -/
def recvInput (fO fI : Nat) (st : TermState) :
    Option (Option (List Nat) × TermState) :=
  let pumped : Option TermState :=
    match st.pending with
    | _ :: _ => some st
    | [] =>
      match recvResp fI true 0 fO st with
      | none => none
      | some (r, st') =>
        some (if r.isEmpty then st' else { st' with responses := st'.responses ++ [r] })
  match pumped with
  | none => none
  | some st' =>
    match st'.pending with
    | [] => some (none, st')
    | k :: ks => some (some k, { st' with pending := ks })

/-- Call `recvInput` a given number of times, collecting the returned
values in order. -/
def driveN (fO fI : Nat) : Nat → TermState → Option (List (Option (List Nat)) × TermState)
  | 0, st => some ([], st)
  | n + 1, st =>
    (recvInput fO fI st).bind fun p =>
      (driveN fO fI n p.2).bind fun q => some (p.1 :: q.1, q.2)

/-- Split a byte list at the first occurrence of `sep`, modelling
Python's `s.split(sep, 1)`; `none` when `sep` does not occur (in which
case the Python two-variable unpacking raises `ValueError`). -/
def splitAtFirst (sep : Nat) : List Nat → Option (List Nat × List Nat)
  | [] => none
  | c :: cs =>
    if c = sep then some ([], cs)
    else (splitAtFirst sep cs).map fun p => (c :: p.1, p.2)

/-- ASCII decimal digit test. -/
def isDigitB (c : Nat) : Bool := decide (48 ≤ c) && decide (c ≤ 57)

/-- Value of a nonempty all-digit byte list, modelling Python `int`. -/
def digitsVal (l : List Nat) : Nat :=
  l.foldl (fun acc c => acc * 10 + (c - 48)) 0

/-- Parsing of a cursor report frame in `Terminal.fetchCursor`:
`resp[1:-1]` split once at `';'`, both halves converted with `int`.
`none` models an uncaught `ValueError`.  On the alphabet that demuxed
frames can contain (the continuation set), Python `int` succeeds
exactly on nonempty digit strings. -/
def parseCursorReport (r : List Nat) : Option (Int × Int) :=
  let interior := (r.drop 1).dropLast
  match splitAtFirst 59 interior with
  | none => none
  | some (a, b) =>
    if a ≠ [] ∧ b ≠ [] ∧ a.all isDigitB ∧ b.all isDigitB then
      some ((digitsVal a : Int), (digitsVal b : Int))
    else none

/-- Outcome of `Terminal.fetchCursor`: a parsed cursor report, the
`TerminalException` raised when the 12-attempt budget is exhausted, or
the uncaught `ValueError`/`UnicodeDecodeError` escaping from parsing a
shape-passing but malformed report. -/
inductive FetchOut where
  | ok (row col : Int)
  | unresponsive
  | parseError
deriving DecidableEq, Repr

/-- The retry loop of `Terminal.fetchCursor`: up to `n` attempts, each
a `recvResponse(0.25)`; empty read re-sends the request, a frame not
shaped `[...R` is discarded, a shape-passing frame is parsed. -/
def fetchLoop (fO fI : Nat) : Nat → TermState → Option (FetchOut × TermState)
  | 0, st => some (.unresponsive, st)
  | n + 1, st =>
    match recvResponse fO fI true 0 st with
    | none => none
    | some (r, st') =>
      if r = [] then
        match sendCommand st' REQUEST_CURSOR with
        | none => none
        | some st'' => fetchLoop fO fI n st''
      else if r.head? ≠ some 91 ∨ r.getLast? ≠ some 82 then fetchLoop fO fI n st'
      else
        match parseCursorReport r with
        | none => some (.parseError, st')
        | some (row, col) => some (.ok row col, { st' with cursor := (row, col) })

/-- `Terminal.fetchCursor`: return the cached cursor when known, else
send the cursor-position request and run the 12-attempt retry loop. -/
def fetchCursor (fO fI : Nat) (st : TermState) : Option (FetchOut × TermState) :=
  if st.cursor.1 ≠ -1 ∧ st.cursor.2 ≠ -1 then some (.ok st.cursor.1 st.cursor.2, st)
  else
    match sendCommand st REQUEST_CURSOR with
    | none => none
    | some st' => fetchLoop fO fI 12 st'

/-- The cursor-prediction step of the closure `fb` in
`Terminal.sendText`, for one character with code point `ch`.  The
source interleaves this update with byte encoding; the update depends
only on the character, so it is factored out here. -/
def fbCursor (columns rows : Int) (autowrap : Bool) (rc : Int × Int) (ch : Nat) : Int × Int :=
  let row := rc.1
  let col := rc.2
  if row ≠ -1 ∧ col ≠ -1 then
    let rc2 : Int × Int :=
      if ch = 13 ∨ ch = 10 then (row + 1, 1)
      else if ch < 32 then (-1, -1)
      else if ch = 9 then (-1, -1)  -- unreachable (9 < 32); kept to mirror the source
      else
        let col2 := col + 1
        if col2 > columns then
          if autowrap then (row + 1, 1) else (row, columns)
        else (row, col2)
    if rc2.1 > rows then (-1, -1) else rc2
  else (row, col)

/-- The prediction step as the specification states it: CR/LF go to
column 1 of the next row; control characters below `0x20` other than
CR/LF, and tab, make the cursor Unknown; ordinary characters advance
the column, wrapping to column 1 of the next row when autowrap is on
and the column would exceed `columns`, else clamping to the last
column; whenever the predicted row exceeds `rows` the cursor becomes
Unknown; an Unknown cursor stays Unknown.  Unknown is `(-1, -1)`. -/
def specCursorStep (columns rows : Int) (autowrap : Bool) (rc : Int × Int) (ch : Nat) :
    Int × Int :=
  if rc = (-1, -1) then (-1, -1)
  else
    let rc2 : Int × Int :=
      if ch = 13 ∨ ch = 10 then (rc.1 + 1, 1)
      else if ch < 32 ∨ ch = 9 then (-1, -1)
      else if rc.2 + 1 > columns then
        if autowrap then (rc.1 + 1, 1) else (rc.1, columns)
      else (rc.1, rc.2 + 1)
    if rc2.1 > rows then (-1, -1) else rc2

/-- The byte encoding of one character in `Terminal.sendText`:
`(slot, payload)`, where `slot` is `true` when the character is emitted
through the alternate (line-drawing) graphic slot (`alt`) and `false`
for the default slot (`norm`), and `payload` is the byte sequence
before the slot-switch prefix.  Follows the source's chain: ASCII
passes through; box-drawing, symbol and fill glyphs map to alternate
glyph bytes; accented letters and punctuation variants transliterate;
anything else falls back to the alternate `\x60` glyph. -/
def encodeChar (bolded underlined rev : Bool) (ch : Nat) : Bool × List Nat :=
  if ch < 128 then (false, [ch])
  else if ch = 0x2500 then (true, [0x71])
  else if ch = 0x2502 then (true, [0x78])
  else if ch = 0x250c then (true, [0x6C])
  else if ch = 0x2510 then (true, [0x6B])
  else if ch = 0x2514 then (true, [0x6D])
  else if ch = 0x2518 then (true, [0x6A])
  else if ch = 0x253c then (true, [0x6e])
  else if ch = 0x251c then (true, [0x74])
  else if ch = 0x2524 then (true, [0x75])
  else if ch = 0x2534 then (true, [0x76])
  else if ch = 0x252c then (true, [0x77])
  else if ch = 0xc0 ∨ ch = 0xc1 ∨ ch = 0xc2 ∨ ch = 0xc3 ∨ ch = 0xc4 ∨ ch = 0xc5 then
    (false, [65])
  else if ch = 0xc7 then (false, [67])
  else if ch = 0xc8 ∨ ch = 0xc9 ∨ ch = 0xca ∨ ch = 0xcb then (false, [69])
  else if ch = 0xcc ∨ ch = 0xcd ∨ ch = 0xce ∨ ch = 0xcf then (false, [73])
  else if ch = 0xd0 then (false, [68])
  else if ch = 0xd1 then (false, [78])
  else if ch = 0xd2 ∨ ch = 0xd3 ∨ ch = 0xd4 ∨ ch = 0xd5 ∨ ch = 0xd6 then (false, [79])
  else if ch = 0xd9 ∨ ch = 0xda ∨ ch = 0xdb ∨ ch = 0xdc then (false, [85])
  else if ch = 0xdd then (false, [89])
  else if ch = 0xe0 ∨ ch = 0xe1 ∨ ch = 0xe2 ∨ ch = 0xe3 ∨ ch = 0xe4 ∨ ch = 0xe5 then
    (false, [97])
  else if ch = 0xe7 then (false, [99])
  else if ch = 0xe8 ∨ ch = 0xe9 ∨ ch = 0xea ∨ ch = 0xeb then (false, [101])
  else if ch = 0xec ∨ ch = 0xed ∨ ch = 0xee ∨ ch = 0xef then (false, [105])
  else if ch = 0xf0 then (false, [111])
  else if ch = 0xf1 then (false, [110])
  else if ch = 0xf2 ∨ ch = 0xf3 ∨ ch = 0xf4 ∨ ch = 0xf5 ∨ ch = 0xf6 then (false, [111])
  else if ch = 0xf9 ∨ ch = 0xfa ∨ ch = 0xfb ∨ ch = 0xfc then (false, [117])
  else if ch = 0xfd ∨ ch = 0xff then (false, [121])
  else if ch = 0x2591 then
    if !bolded then (true, [0x6E])
    else (true, [ESCb] ++ SET_NORMAL ++ (if rev then [ESCb] ++ SET_REVERSE else []) ++
      (if underlined then [ESCb] ++ SET_UNDERLINE else []) ++ [0x6E] ++ [ESCb] ++ SET_BOLD)
  else if ch = 0x2592 then
    if !bolded then (true, [0x61])
    else (true, [ESCb] ++ SET_NORMAL ++ (if rev then [ESCb] ++ SET_REVERSE else []) ++
      (if underlined then [ESCb] ++ SET_UNDERLINE else []) ++ [0x61] ++ [ESCb] ++ SET_BOLD)
  else if ch = 0x2593 then
    if bolded then (true, [0x61])
    else (true, [ESCb] ++ SET_BOLD ++ [0x61] ++ [ESCb] ++ SET_NORMAL ++
      (if rev then [ESCb] ++ SET_REVERSE else []) ++
      (if underlined then [ESCb] ++ SET_UNDERLINE else []))
  else if ch = 0x2588 then
    (false, [ESCb] ++ (if rev then SET_NORMAL else SET_REVERSE) ++ [32] ++
      [ESCb] ++ (if rev then SET_REVERSE else SET_NORMAL) ++
      (if bolded then [ESCb] ++ SET_BOLD else []) ++
      (if underlined then [ESCb] ++ SET_UNDERLINE else []))
  else if ch = 0xb0 then (true, [0x66])
  else if ch = 0xb1 then (true, [0x67])
  else if ch = 0x2264 then (true, [0x79])
  else if ch = 0x2265 then (true, [0x7a])
  else if ch = 0x3c0 then (true, [0x7b])
  else if ch = 0x2260 then (true, [0x7c])
  else if ch = 0xa3 then (true, [0x7d])
  else if ch = 0xb7 ∨ ch = 0x2022 then (true, [0x7e])
  else if ch = 0x2018 ∨ ch = 0x2019 ∨ ch = 0x201a ∨ ch = 0x201b ∨ ch = 0x2032 ∨
      ch = 0x2035 then (false, [39])
  else if ch = 0x201c ∨ ch = 0x201d ∨ ch = 0x201e ∨ ch = 0x201f ∨ ch = 0x2033 ∨
      ch = 0x2036 then (false, [34])
  else if ch = 0x204e ∨ ch = 0x2055 then (false, [42])
  else if ch = 0x204f then (false, [59])
  else if ch = 0x2052 then (false, [37])
  else if ch = 0x2053 then (false, [126])
  else (true, [0x60])

/-- The slot-switching encoder of `Terminal.sendText`: thread the
`inAlt` flag through the characters, prefixing a single `\x0E`
(shift-out, alternate slot) or `\x0F` (shift-in, default slot) byte
exactly when the character's slot differs from the current one, as the
closures `alt` and `norm` do. -/
def encodeFrom (bolded underlined rev : Bool) (inAlt : Bool) :
    List Nat → List Nat × Bool
  | [] => ([], inAlt)
  | c :: cs =>
    let e := encodeChar bolded underlined rev c
    let pre : List Nat := if e.1 = inAlt then [] else if e.1 then [14] else [15]
    let rest := encodeFrom bolded underlined rev e.1 cs
    (pre ++ e.2 ++ rest.1, rest.2)

/-- `Terminal.sendText` over a list of character code points: emit the
encoded bytes, record the final graphic slot in `boxMode`, and replace
the cursor cache by the prediction (normalising a partially lost
prediction to fully Unknown, as the source's final `if` does). -/
def sendText (st : TermState) (text : List Nat) : TermState :=
  let rc := text.foldl (fbCursor (st.columns : Int) (st.rows : Int) st.autowrap) st.cursor
  let enc := encodeFrom st.bolded st.underlined st.reversed st.boxMode text
  { st with
    out := st.out ++ enc.1
    boxMode := enc.2
    cursor := if rc.1 = -1 ∨ rc.2 = -1 then (-1, -1) else rc }

/-- One well-formed item on the wire: a plain keystroke byte, or a
complete escape frame `ESC cs t` with continuation bytes `cs` and
terminator `t`. -/
inductive Tok where
  | plain (b : Nat)
  | frame (cs : List Nat) (t : Nat)
deriving DecidableEq, Repr

/-- Well-formedness of one token: a plain byte is not the escape
introducer; a frame's interior lies in the continuation set and its
terminator does not. -/
def Tok.wfB : Tok → Bool
  | .plain b => b != 27
  | .frame cs t => cs.all contB && !contB t

/-- Well-formedness of a token sequence. -/
def WFt (ts : List Tok) : Prop := ts.all Tok.wfB = true

/-- The bytes a token occupies on the wire. -/
def Tok.wire : Tok → List Nat
  | .plain b => [b]
  | .frame cs t => 27 :: (cs ++ [t])

/-- The byte stream of a token sequence. -/
def wireOf : List Tok → List Nat
  | [] => []
  | t :: ts => t.wire ++ wireOf ts

/-- The keystroke tokens a token contributes to the pending-input
queue: a plain byte as a singleton, an arrow frame as its classified
frame body, a response frame nothing. -/
def Tok.keys : Tok → List (List Nat)
  | .plain b => [[b]]
  | .frame cs t => if isArrow (cs ++ [t]) then [cs ++ [t]] else []

/-- All keystroke tokens of a sequence, in wire order. -/
def keysOf : List Tok → List (List Nat)
  | [] => []
  | t :: ts => t.keys ++ keysOf ts

/-- The response frames of a sequence (non-arrow frames), in order. -/
def respsOf : List Tok → List (List Nat)
  | [] => []
  | .plain _ :: ts => respsOf ts
  | .frame cs t :: ts =>
    if isArrow (cs ++ [t]) then respsOf ts else (cs ++ [t]) :: respsOf ts

/-- The plain bytes before the first frame. -/
def leadPlain : List Tok → List Nat
  | .plain b :: ts => b :: leadPlain ts
  | _ => []

/-- The sequence with its leading plain bytes removed. -/
def afterPlain : List Tok → List Tok
  | .plain _ :: ts => afterPlain ts
  | ts => ts

/-- What one `_recvResponse` call does to a well-formed token stream:
the keystroke tokens it moves to the pending queue, the frame it
returns (`[]` for an empty return), and the tokens left unconsumed. -/
def pumpSpec : List Tok → List (List Nat) × List Nat × List Tok
  | [] => ([], [], [])
  | .plain b :: ts =>
    let q := pumpSpec ts
    ([b] :: q.1, q.2)
  | .frame cs t :: ts =>
    if isArrow (cs ++ [t]) then
      let q := pumpSpec ts
      ((cs ++ [t]) :: q.1, q.2)
    else ([], cs ++ [t], ts)

theorem sendCommand_long (st : TermState) (cmd : List Nat) (h : 5 ≤ cmd.length) :
    sendCommand st cmd =
      some { st with out := (st.out ++ [ESCb]) ++ cmd, cursor := (-1, -1) } := by
  simp only [sendCommand]
  rw [if_neg (by rintro rfl; simp [SET_NORMAL] at h)]
  rw [if_neg (by rintro rfl; simp [SET_REVERSE] at h)]
  rw [if_neg (by rintro rfl; simp [SET_BOLD] at h)]
  rw [if_neg (by rintro rfl; simp [SET_UNDERLINE] at h)]
  rw [if_neg (by rintro rfl; simp [SET_132_COLUMNS] at h)]
  rw [if_neg (by rintro rfl; simp [SET_80_COLUMNS] at h)]
  rw [if_neg (by rintro rfl; simp [TURN_OFF_AUTOWRAP] at h)]
  rw [if_neg (by rintro rfl; simp [TURN_ON_AUTOWRAP] at h)]
  rw [if_neg (by
    rintro (rfl | rfl | rfl | rfl | rfl | rfl | rfl | rfl | rfl | rfl | rfl | rfl | rfl | rfl) <;>
      simp [G0_UK_CHARSET, G0_US_CHARSET, G0_BOX_CHARSET, G1_UK_CHARSET, G1_US_CHARSET,
        G1_BOX_CHARSET, TURN_ON_REGION, TURN_OFF_REGION, DOUBLE_HEIGHT_TOP,
        DOUBLE_HEIGHT_BOTTOM, DOUBLE_WIDTH, NORMAL_SIZE, REQUEST_STATUS, REQUEST_CURSOR] at h)]
  rw [if_neg (by rintro rfl; simp [SAVE_CURSOR] at h)]
  rw [if_neg (by rintro rfl; simp [RESTORE_CURSOR] at h)]
  simp

theorem natDigits_length (n : Nat) : 1 ≤ (natDigits n).length := by
  rw [natDigits]
  split <;> simp

theorem moveFmt_length (row col : Int) : 5 ≤ (moveFmt row col).length := by
  have h1 := natDigits_length row.toNat
  have h2 := natDigits_length col.toNat
  simp [moveFmt]
  omega

theorem sendCommand_lastMode (st : TermState) (cmd : List Nat) (st' : TermState)
    (hne : cmd ≠ SAVE_CURSOR) (h : sendCommand st cmd = some st') :
    st'.lastMode = st.lastMode := by
  obtain ⟨l, p, r, tp, o, rv, b, u, a, bm, c, rw, cu, lms, lm⟩ := st
  by_cases e1 : cmd = SET_NORMAL
  · subst e1; obtain rfl := Option.some.inj h; rfl
  by_cases e2 : cmd = SET_REVERSE
  · subst e2; obtain rfl := Option.some.inj h; rfl
  by_cases e3 : cmd = SET_BOLD
  · subst e3; obtain rfl := Option.some.inj h; rfl
  by_cases e4 : cmd = SET_UNDERLINE
  · subst e4; obtain rfl := Option.some.inj h; rfl
  by_cases e5 : cmd = SET_132_COLUMNS
  · subst e5; obtain rfl := Option.some.inj h; rfl
  by_cases e6 : cmd = SET_80_COLUMNS
  · subst e6; obtain rfl := Option.some.inj h; rfl
  by_cases e7 : cmd = TURN_OFF_AUTOWRAP
  · subst e7; obtain rfl := Option.some.inj h; rfl
  by_cases e8 : cmd = TURN_ON_AUTOWRAP
  · subst e8; obtain rfl := Option.some.inj h; rfl
  by_cases e9 : cmd = G0_UK_CHARSET ∨ cmd = G0_US_CHARSET ∨ cmd = G0_BOX_CHARSET ∨
      cmd = G1_UK_CHARSET ∨ cmd = G1_US_CHARSET ∨ cmd = G1_BOX_CHARSET ∨
      cmd = TURN_ON_REGION ∨ cmd = TURN_OFF_REGION ∨ cmd = DOUBLE_HEIGHT_TOP ∨
      cmd = DOUBLE_HEIGHT_BOTTOM ∨ cmd = DOUBLE_WIDTH ∨ cmd = NORMAL_SIZE ∨
      cmd = REQUEST_STATUS ∨ cmd = REQUEST_CURSOR
  · rcases e9 with rfl | rfl | rfl | rfl | rfl | rfl | rfl | rfl | rfl | rfl | rfl | rfl |
      rfl | rfl <;> (obtain rfl := Option.some.inj h; rfl)
  by_cases e10 : cmd = SAVE_CURSOR
  · exact absurd e10 hne
  by_cases e11 : cmd = RESTORE_CURSOR
  · subst e11
    cases lm with
    | none => exact Option.noConfusion h
    | some m =>
      obtain ⟨mb, mu, mr, mm⟩ := m
      obtain rfl := Option.some.inj h
      rfl
  revert h
  simp only [sendCommand]
  rw [if_neg e1, if_neg e2, if_neg e3, if_neg e4, if_neg e5, if_neg e6, if_neg e7,
    if_neg e8, if_neg e9, if_neg e10, if_neg e11]
  intro h
  obtain rfl := Option.some.inj h
  rfl

theorem sendCommand_eq_set80 (st : TermState) :
    sendCommand st SET_80_COLUMNS =
      some { st with
        out := (st.out ++ [ESCb]) ++ SET_80_COLUMNS
        columns := 80
        cursor := (-1, -1) } := rfl

theorem sendCommand_eq_region124 (st : TermState) :
    sendCommand st SET_REGION_1_24 =
      some { st with
        out := (st.out ++ [ESCb]) ++ SET_REGION_1_24
        cursor := (-1, -1) } := rfl

theorem sendCommand_eq_regionOff (st : TermState) :
    sendCommand st TURN_OFF_REGION =
      some { st with out := (st.out ++ [ESCb]) ++ TURN_OFF_REGION } := rfl

theorem sendCommand_eq_clearScreen (st : TermState) :
    sendCommand st CLEAR_SCREEN =
      some { st with
        out := (st.out ++ [ESCb]) ++ CLEAR_SCREEN
        cursor := (-1, -1) } := rfl

theorem sendCommand_eq_home (st : TermState) :
    sendCommand st MOVE_CURSOR_ORIGIN =
      some { st with
        out := (st.out ++ [ESCb]) ++ MOVE_CURSOR_ORIGIN
        cursor := (-1, -1) } := rfl

theorem sendCommand_eq_setNormal (st : TermState) :
    sendCommand st SET_NORMAL =
      some { st with
        out := (st.out ++ [ESCb]) ++ SET_NORMAL
        reversed := false
        bolded := false
        underlined := false } := rfl

theorem sendCommand_eq_g0us (st : TermState) :
    sendCommand st G0_US_CHARSET =
      some { st with out := (st.out ++ [ESCb]) ++ G0_US_CHARSET } := rfl

theorem sendCommand_eq_g1box (st : TermState) :
    sendCommand st G1_BOX_CHARSET =
      some { st with out := (st.out ++ [ESCb]) ++ G1_BOX_CHARSET } := rfl

theorem sendCommand_eq_autowrapOff (st : TermState) :
    sendCommand st TURN_OFF_AUTOWRAP =
      some { st with
        out := (st.out ++ [ESCb]) ++ TURN_OFF_AUTOWRAP
        autowrap := false } := rfl

theorem sendCommand_eq_autowrapOn (st : TermState) :
    sendCommand st TURN_ON_AUTOWRAP =
      some { st with
        out := (st.out ++ [ESCb]) ++ TURN_ON_AUTOWRAP
        autowrap := true } := rfl

/-- The byte sequence `reset` actually writes, in source order: 80
columns, scroll region rows 1 to 24, region mode off, clear screen,
home, attributes normal, G0 to US, G1 to line drawing, autowrap off,
shift-in. -/
def resetEmitted : List Nat :=
  [ESCb] ++ SET_80_COLUMNS ++ [ESCb] ++ SET_REGION_1_24 ++ [ESCb] ++ TURN_OFF_REGION ++
  [ESCb] ++ CLEAR_SCREEN ++ [ESCb] ++ MOVE_CURSOR_ORIGIN ++ [ESCb] ++ SET_NORMAL ++
  [ESCb] ++ G0_US_CHARSET ++ [ESCb] ++ G1_BOX_CHARSET ++ [ESCb] ++ TURN_OFF_AUTOWRAP ++ [15]

/-- The byte sequence the claim describes, reading its command names in
the natural way: clear scroll region (`ESC[?6l`) before setting the
full-screen scroll region (`ESC[1;24r`). -/
def claimedResetEmitted : List Nat :=
  [ESCb] ++ SET_80_COLUMNS ++ [ESCb] ++ TURN_OFF_REGION ++ [ESCb] ++ SET_REGION_1_24 ++
  [ESCb] ++ CLEAR_SCREEN ++ [ESCb] ++ MOVE_CURSOR_ORIGIN ++ [ESCb] ++ SET_NORMAL ++
  [ESCb] ++ G0_US_CHARSET ++ [ESCb] ++ G1_BOX_CHARSET ++ [ESCb] ++ TURN_OFF_AUTOWRAP ++ [15]

/-- Claim C6, counterexample: `reset` does not emit the claimed order.
The code sends the full-screen scroll-region command `ESC[1;24r` before
the clear-scroll-region command `ESC[?6l`, while the claim lists clear
before set; the emitted stream differs from the claimed one. -/
theorem C6_reset_order_counterexample :
    (resetT initTermState).map TermState.out = some resetEmitted ∧
    resetEmitted ≠ claimedResetEmitted := by
  constructor
  · decide
  · decide

/-- Claim C6, amended: from any state, `reset` emits exactly, in order:
select 80-column mode, set the scroll region to the full screen (rows
1 to 24), clear (disable) the scroll-region mode, clear screen, home
cursor, clear all attributes, select the US character set for graphic
slot G0 and the line-drawing set for G1, disable autowrap, and select
the non-alternate graphic slot (shift-in); afterwards the tracked state
holds its defaults: 80 columns, all attribute flags clear, autowrap
off, box mode off, cursor Unknown. -/
theorem C6_reset_amended (st : TermState) :
    resetT st =
      some { st with
        out := st.out ++ resetEmitted
        columns := 80
        reversed := false
        bolded := false
        underlined := false
        autowrap := false
        boxMode := false
        cursor := (-1, -1) } := by
  obtain ⟨l, p, r, tp, o, rv, b, u, a, bm, c, rw, cu, lms, lm⟩ := st
  simp only [resetT, sendCommand_eq_set80, sendCommand_eq_region124, sendCommand_eq_regionOff,
    sendCommand_eq_clearScreen, sendCommand_eq_home, sendCommand_eq_setNormal,
    sendCommand_eq_g0us, sendCommand_eq_g1box, sendCommand_eq_autowrapOff, Option.some_bind]
  simp [resetEmitted, SET_80_COLUMNS, SET_REGION_1_24, TURN_OFF_REGION, CLEAR_SCREEN,
    MOVE_CURSOR_ORIGIN, SET_NORMAL, G0_US_CHARSET, G1_BOX_CHARSET, TURN_OFF_AUTOWRAP, ESCb]

/-- Claim C7: `moveCursor(row, col)` with a target outside
`[1, rows] × [1, columns]` is a complete no-op — no bytes written, the
cursor cache and every other field unchanged, no error — while an
in-range target emits the cursor-position escape sequence and sets the
cached cursor to exactly `(row, col)`, leaving all other state
untouched. -/
theorem C7_moveCursor_bounds (st : TermState) (row col : Int) :
    ((row < 1 ∨ row > (st.rows : Int) ∨ col < 1 ∨ col > (st.columns : Int)) →
      moveCursor st row col = some st) ∧
    (1 ≤ row → row ≤ (st.rows : Int) → 1 ≤ col → col ≤ (st.columns : Int) →
      moveCursor st row col =
        some { st with
          out := (st.out ++ [ESCb]) ++ moveFmt row col
          cursor := (row, col) }) := by
  constructor
  · intro h
    unfold moveCursor
    split_ifs with h1 h2
    · rfl
    · rfl
    · push_neg at h1 h2
      rcases h with h | h | h | h <;> omega
  · intro hr1 hr2 hc1 hc2
    unfold moveCursor
    rw [if_neg (by omega), if_neg (by omega),
      sendCommand_long st (moveFmt row col) (moveFmt_length row col)]
    rfl

/-- Witness for C7 at a concrete state: `moveCursor 0 5` (row below 1)
is a no-op, and `moveCursor 3 4` emits the move command and caches
`(3, 4)`. -/
theorem C7_moveCursor_bounds_witness :
    moveCursor initTermState 0 5 = some initTermState ∧
    moveCursor initTermState 3 4 =
      some { initTermState with
        out := (initTermState.out ++ [ESCb]) ++ moveFmt 3 4
        cursor := (3, 4) } :=
  ⟨(C7_moveCursor_bounds initTermState 0 5).1 (by decide),
   (C7_moveCursor_bounds initTermState 3 4).2 (by decide) (by decide) (by decide) (by decide)⟩

/-- Claim C9: when the tracked autowrap flag is clear, calling
`setAutoWrap(true)` twice in a row writes the enable sequence exactly
once — the second call is a no-op because the flag already reflects the
enabled state — and in general a `setAutoWrap` call whose argument
equals the tracked flag emits nothing and changes nothing. -/
theorem C9_setAutoWrap_idempotent (st : TermState) :
    (st.autowrap = false →
      (setAutoWrap st true).bind (fun s => setAutoWrap s true) =
        some { st with
          out := (st.out ++ [ESCb]) ++ TURN_ON_AUTOWRAP
          autowrap := true }) ∧
    (∀ v, st.autowrap = v → setAutoWrap st v = some st) := by
  constructor
  · intro h
    simp only [setAutoWrap, h, Bool.not_false, Bool.true_and, if_true,
      sendCommand_eq_autowrapOn, Option.some_bind]
    simp
  · intro v hv
    cases v with
    | false => simp [setAutoWrap, hv]
    | true => simp [setAutoWrap, hv]

/-- Witness for C9 from the constructor state (autowrap off). -/
theorem C9_setAutoWrap_idempotent_witness :
    (setAutoWrap initTermState true).bind (fun s => setAutoWrap s true) =
      some { initTermState with
        out := (initTermState.out ++ [ESCb]) ++ TURN_ON_AUTOWRAP
        autowrap := true } :=
  (C9_setAutoWrap_idempotent initTermState).1 (by decide)

/-- Claim C10: on an engine on which save-cursor has never been sent,
sending restore-cursor raises an uncaught `AttributeError` (modelled
`none`) instead of restoring attributes: the constructor initialises
the snapshot under the name `lastModes`, while the save/restore
branches use `lastMode`, which does not exist until save-cursor runs.
Conjuncts: the constructor leaves `lastMode` absent; no command other
than save-cursor ever creates it; restoring with it absent fails. -/
theorem C10_restore_before_save (st : TermState) :
    initTermState.lastMode = none ∧
    initTermState.lastModes = (false, false, false, false) ∧
    (∀ cmd st', cmd ≠ SAVE_CURSOR → sendCommand st cmd = some st' →
      st'.lastMode = st.lastMode) ∧
    (st.lastMode = none → sendCommand st RESTORE_CURSOR = none) ∧
    sendCommand st SAVE_CURSOR =
      some { st with
        out := (st.out ++ [ESCb]) ++ SAVE_CURSOR
        lastMode := some (st.bolded, st.underlined, st.reversed, st.boxMode) } := by
  refine ⟨rfl, rfl, fun cmd st' hne h => sendCommand_lastMode st cmd st' hne h, ?_, rfl⟩
  intro h
  obtain ⟨l, p, r, tp, o, rv, b, u, a, bm, c, rw, cu, lms, lm⟩ := st
  simp only at h
  subst h
  rfl

/-- Witness for C10 at the constructor state: restore-cursor fails. -/
theorem C10_restore_before_save_witness :
    sendCommand initTermState RESTORE_CURSOR = none :=
  (C10_restore_before_save initTermState).2.2.2.1 (by decide)

theorem lone_esc_cycle (fuel : Nat) :
    ∀ (dl reads : Nat) (st : TermState) (g : Bool), st.tape = [] →
      (st.leftover = [27] → recvImpl true dl fuel st [] g reads = none) ∧
      (st.leftover = [] → recvImpl true dl fuel st [27] true reads = none) := by
  induction fuel with
  | zero => exact fun dl reads st g _ => ⟨fun _ => rfl, fun _ => rfl⟩
  | succ n ih =>
    intro dl reads st g htp
    obtain ⟨l, p, r, tp, o, rv, b, u, a, bm, c, rw, cu, lms, lm⟩ := st
    simp only at htp
    subst htp
    constructor
    · intro hl
      simp only at hl
      subst hl
      exact (ih dl reads ⟨[], p, r, [], o, rv, b, u, a, bm, c, rw, cu, lms, lm⟩ true rfl).2 rfl
    · intro hl
      simp only at hl
      subst hl
      exact (ih dl (reads + 1)
        ⟨[27], p ++ [], r, [], o, rv, b, u, a, bm, c, rw, cu, lms, lm⟩ true rfl).1 rfl

/-- Claim C2 (code bug): when the only unconsumed byte is a lone escape
introducer and no further byte ever arrives within the budget,
`recvResponse` with a timeout does not return at all: the loop requeues
the introducer into the leftover buffer, immediately re-consumes it,
and cycles forever (here: yields `none` at every fuel), contrary to the
claimed "re-queue and return empty within the budget" and to the
source's own comment, which requeues the escape so that a later call
can retry. -/
theorem C2_lone_escape_never_returns (fO fI dl : Nat) (st : TermState)
    (hl : st.leftover = [27]) (htp : st.tape = []) (hr : st.responses = []) :
    recvResponse fO fI true dl st = none := by
  unfold recvResponse
  rw [hr]
  cases fO with
  | zero => rfl
  | succ n =>
    unfold recvResp
    rw [(lone_esc_cycle fI dl 0 st false htp).1 hl]

/-- Witness for C2 at a concrete state and fuel. -/
theorem C2_lone_escape_never_returns_witness :
    recvResponse 6 9 true 0 { initTermState with leftover := [27] } = none :=
  C2_lone_escape_never_returns 6 9 0 { initTermState with leftover := [27] }
    (by decide) (by decide) (by decide)

theorem fbCursor_eq_spec (columns rows : Int) (aw : Bool) (rc : Int × Int) (ch : Nat)
    (hcol : 1 ≤ columns) (h : rc = (-1, -1) ∨ (1 ≤ rc.1 ∧ 1 ≤ rc.2)) :
    fbCursor columns rows aw rc ch = specCursorStep columns rows aw rc ch := by
  obtain ⟨row, col⟩ := rc
  rcases h with h | h
  · simp only [Prod.mk.injEq] at h
    obtain ⟨rfl, rfl⟩ := h
    simp [fbCursor, specCursorStep]
  · simp only at h
    obtain ⟨h1, h2⟩ := h
    have hne : ¬((row, col) = ((-1 : Int), (-1 : Int))) := by
      intro hh
      have := congrArg Prod.fst hh
      simp only at this
      omega
    simp only [fbCursor, specCursorStep,
      if_pos (show row ≠ -1 ∧ col ≠ -1 from ⟨by omega, by omega⟩), if_neg hne]
    by_cases hc1 : ch = 13 ∨ ch = 10
    · simp only [if_pos hc1]
    · simp only [if_neg hc1]
      by_cases hc2 : ch < 32
      · simp only [if_pos hc2, if_pos (show ch < 32 ∨ ch = 9 from Or.inl hc2)]
      · simp only [if_neg hc2, if_neg (show ¬ch = 9 by omega),
          if_neg (show ¬(ch < 32 ∨ ch = 9) from by rintro (hh | hh) <;> omega)]

theorem fbCursor_inv (columns rows : Int) (aw : Bool) (rc : Int × Int) (ch : Nat)
    (hcol : 1 ≤ columns) (h : rc = (-1, -1) ∨ (1 ≤ rc.1 ∧ 1 ≤ rc.2)) :
    fbCursor columns rows aw rc ch = (-1, -1) ∨
      (1 ≤ (fbCursor columns rows aw rc ch).1 ∧ 1 ≤ (fbCursor columns rows aw rc ch).2) := by
  obtain ⟨row, col⟩ := rc
  rcases h with h | h
  · simp only [Prod.mk.injEq] at h
    obtain ⟨rfl, rfl⟩ := h
    simp [fbCursor]
  · simp only at h
    obtain ⟨h1, h2⟩ := h
    simp only [fbCursor]
    rw [if_pos ⟨by omega, by omega⟩]
    split_ifs <;> simp_all <;> omega

theorem foldl_fbCursor_inv (columns rows : Int) (aw : Bool) (text : List Nat) :
    ∀ rc : Int × Int, 1 ≤ columns → rc = (-1, -1) ∨ (1 ≤ rc.1 ∧ 1 ≤ rc.2) →
      text.foldl (fbCursor columns rows aw) rc = (-1, -1) ∨
        (1 ≤ (text.foldl (fbCursor columns rows aw) rc).1 ∧
         1 ≤ (text.foldl (fbCursor columns rows aw) rc).2) := by
  induction text with
  | nil => intro rc _ h; exact h
  | cons ch cs ih =>
    intro rc hcol h
    exact ih (fbCursor columns rows aw rc ch) hcol (fbCursor_inv columns rows aw rc ch hcol h)

theorem foldl_fbCursor_eq_spec (columns rows : Int) (aw : Bool) (text : List Nat) :
    ∀ rc : Int × Int, 1 ≤ columns → rc = (-1, -1) ∨ (1 ≤ rc.1 ∧ 1 ≤ rc.2) →
      text.foldl (fbCursor columns rows aw) rc =
        text.foldl (specCursorStep columns rows aw) rc := by
  induction text with
  | nil => intro rc _ _; rfl
  | cons ch cs ih =>
    intro rc hcol h
    simp only [List.foldl_cons]
    rw [fbCursor_eq_spec columns rows aw rc ch hcol h]
    rw [← fbCursor_eq_spec columns rows aw rc ch hcol h]
    exact ih (fbCursor columns rows aw rc ch) hcol (fbCursor_inv columns rows aw rc ch hcol h)

/-- Claim C4: for a known starting cursor (or Unknown, which is
preserved), the cursor predicted by `sendText` is exactly the fold of
the claim's per-character rules over the text: CR/LF set column 1 and
advance the row; other control characters below `0x20` and tab make the
cursor Unknown; ordinary characters advance the column, wrapping to
column 1 of the next row with autowrap on, else clamping to the last
column; a predicted row beyond `rows` makes the cursor Unknown.  In
particular, from `(5, 10)` with 80 columns and autowrap on, sending 5
plain characters yields `(5, 15)`. -/
theorem C4_sendText_cursor_prediction :
    (∀ (st : TermState) (text : List Nat), 1 ≤ st.columns →
      st.cursor = (-1, -1) ∨ (1 ≤ st.cursor.1 ∧ 1 ≤ st.cursor.2) →
      (sendText st text).cursor =
        text.foldl (specCursorStep (st.columns : Int) (st.rows : Int) st.autowrap) st.cursor) ∧
    (sendText { initTermState with cursor := (5, 10), autowrap := true }
      [104, 101, 108, 108, 111]).cursor = (5, 15) := by
  constructor
  · intro st text hcol h
    have hcol' : (1 : Int) ≤ (st.columns : Int) := by exact_mod_cast hcol
    have hinv := foldl_fbCursor_inv (st.columns : Int) (st.rows : Int) st.autowrap text
      st.cursor hcol' h
    have heq := foldl_fbCursor_eq_spec (st.columns : Int) (st.rows : Int) st.autowrap text
      st.cursor hcol' h
    simp only [sendText]
    rw [← heq]
    rcases hinv with hinv | hinv
    · rw [hinv]; simp
    · rw [if_neg (by omega)]
  · decide

/-- Witness for C4, instantiating the general half at the scenario
state and text. -/
theorem C4_sendText_cursor_prediction_witness :
    (sendText { initTermState with cursor := (5, 10), autowrap := true }
        [104, 101, 108, 108, 111]).cursor =
      List.foldl (specCursorStep 80 24 true) (5, 10) [104, 101, 108, 108, 111] ∧
    List.foldl (specCursorStep 80 24 true) (5, 10) [104, 101, 108, 108, 111] = (5, 15) :=
  ⟨C4_sendText_cursor_prediction.1 { initTermState with cursor := (5, 10), autowrap := true }
      [104, 101, 108, 108, 111] (by decide) (by decide),
   by decide⟩

/-- Number of graphic-slot switch bytes (shift-out `0x0E` / shift-in
`0x0F`) occurring in a byte sequence. -/
def countSwitch (l : List Nat) : Nat :=
  (l.filter (fun x => x == 14 || x == 15)).length

theorem countSwitch_append (a b : List Nat) :
    countSwitch (a ++ b) = countSwitch a + countSwitch b := by
  simp [countSwitch, List.filter_append]

theorem countSwitch_eq_zero (l : List Nat) (h : ∀ x ∈ l, x ≠ 14 ∧ x ≠ 15) :
    countSwitch l = 0 := by
  simp only [countSwitch, List.length_eq_zero, List.filter_eq_nil]
  intro a ha
  obtain ⟨h1, h2⟩ := h a ha
  simp [h1, h2]

set_option maxHeartbeats 2000000 in
theorem encodeChar_payload_clean (b u r : Bool) (ch : Nat) (h14 : ch ≠ 14) (h15 : ch ≠ 15) :
    countSwitch (encodeChar b u r ch).2 = 0 := by
  by_cases hch : ch < 128
  · simp only [encodeChar, if_pos hch, countSwitch, List.filter]
    have e14 : (ch == 14) = false := by simp [h14]
    have e15 : (ch == 15) = false := by simp [h15]
    simp [e14, e15]
  · unfold encodeChar
    rw [if_neg hch]
    by_cases hb0 : ch = 0x2500
    · rw [if_pos hb0]; cases b <;> cases u <;> cases r <;> rfl
    rw [if_neg hb0]
    by_cases hb1 : ch = 0x2502
    · rw [if_pos hb1]; cases b <;> cases u <;> cases r <;> rfl
    rw [if_neg hb1]
    by_cases hb2 : ch = 0x250c
    · rw [if_pos hb2]; cases b <;> cases u <;> cases r <;> rfl
    rw [if_neg hb2]
    by_cases hb3 : ch = 0x2510
    · rw [if_pos hb3]; cases b <;> cases u <;> cases r <;> rfl
    rw [if_neg hb3]
    by_cases hb4 : ch = 0x2514
    · rw [if_pos hb4]; cases b <;> cases u <;> cases r <;> rfl
    rw [if_neg hb4]
    by_cases hb5 : ch = 0x2518
    · rw [if_pos hb5]; cases b <;> cases u <;> cases r <;> rfl
    rw [if_neg hb5]
    by_cases hb6 : ch = 0x253c
    · rw [if_pos hb6]; cases b <;> cases u <;> cases r <;> rfl
    rw [if_neg hb6]
    by_cases hb7 : ch = 0x251c
    · rw [if_pos hb7]; cases b <;> cases u <;> cases r <;> rfl
    rw [if_neg hb7]
    by_cases hb8 : ch = 0x2524
    · rw [if_pos hb8]; cases b <;> cases u <;> cases r <;> rfl
    rw [if_neg hb8]
    by_cases hb9 : ch = 0x2534
    · rw [if_pos hb9]; cases b <;> cases u <;> cases r <;> rfl
    rw [if_neg hb9]
    by_cases hb10 : ch = 0x252c
    · rw [if_pos hb10]; cases b <;> cases u <;> cases r <;> rfl
    rw [if_neg hb10]
    by_cases hb11 : ch = 0xc0 ∨ ch = 0xc1 ∨ ch = 0xc2 ∨ ch = 0xc3 ∨ ch = 0xc4 ∨ ch = 0xc5
    · rw [if_pos hb11]; cases b <;> cases u <;> cases r <;> rfl
    rw [if_neg hb11]
    by_cases hb12 : ch = 0xc7
    · rw [if_pos hb12]; cases b <;> cases u <;> cases r <;> rfl
    rw [if_neg hb12]
    by_cases hb13 : ch = 0xc8 ∨ ch = 0xc9 ∨ ch = 0xca ∨ ch = 0xcb
    · rw [if_pos hb13]; cases b <;> cases u <;> cases r <;> rfl
    rw [if_neg hb13]
    by_cases hb14 : ch = 0xcc ∨ ch = 0xcd ∨ ch = 0xce ∨ ch = 0xcf
    · rw [if_pos hb14]; cases b <;> cases u <;> cases r <;> rfl
    rw [if_neg hb14]
    by_cases hb15 : ch = 0xd0
    · rw [if_pos hb15]; cases b <;> cases u <;> cases r <;> rfl
    rw [if_neg hb15]
    by_cases hb16 : ch = 0xd1
    · rw [if_pos hb16]; cases b <;> cases u <;> cases r <;> rfl
    rw [if_neg hb16]
    by_cases hb17 : ch = 0xd2 ∨ ch = 0xd3 ∨ ch = 0xd4 ∨ ch = 0xd5 ∨ ch = 0xd6
    · rw [if_pos hb17]; cases b <;> cases u <;> cases r <;> rfl
    rw [if_neg hb17]
    by_cases hb18 : ch = 0xd9 ∨ ch = 0xda ∨ ch = 0xdb ∨ ch = 0xdc
    · rw [if_pos hb18]; cases b <;> cases u <;> cases r <;> rfl
    rw [if_neg hb18]
    by_cases hb19 : ch = 0xdd
    · rw [if_pos hb19]; cases b <;> cases u <;> cases r <;> rfl
    rw [if_neg hb19]
    by_cases hb20 : ch = 0xe0 ∨ ch = 0xe1 ∨ ch = 0xe2 ∨ ch = 0xe3 ∨ ch = 0xe4 ∨ ch = 0xe5
    · rw [if_pos hb20]; cases b <;> cases u <;> cases r <;> rfl
    rw [if_neg hb20]
    by_cases hb21 : ch = 0xe7
    · rw [if_pos hb21]; cases b <;> cases u <;> cases r <;> rfl
    rw [if_neg hb21]
    by_cases hb22 : ch = 0xe8 ∨ ch = 0xe9 ∨ ch = 0xea ∨ ch = 0xeb
    · rw [if_pos hb22]; cases b <;> cases u <;> cases r <;> rfl
    rw [if_neg hb22]
    by_cases hb23 : ch = 0xec ∨ ch = 0xed ∨ ch = 0xee ∨ ch = 0xef
    · rw [if_pos hb23]; cases b <;> cases u <;> cases r <;> rfl
    rw [if_neg hb23]
    by_cases hb24 : ch = 0xf0
    · rw [if_pos hb24]; cases b <;> cases u <;> cases r <;> rfl
    rw [if_neg hb24]
    by_cases hb25 : ch = 0xf1
    · rw [if_pos hb25]; cases b <;> cases u <;> cases r <;> rfl
    rw [if_neg hb25]
    by_cases hb26 : ch = 0xf2 ∨ ch = 0xf3 ∨ ch = 0xf4 ∨ ch = 0xf5 ∨ ch = 0xf6
    · rw [if_pos hb26]; cases b <;> cases u <;> cases r <;> rfl
    rw [if_neg hb26]
    by_cases hb27 : ch = 0xf9 ∨ ch = 0xfa ∨ ch = 0xfb ∨ ch = 0xfc
    · rw [if_pos hb27]; cases b <;> cases u <;> cases r <;> rfl
    rw [if_neg hb27]
    by_cases hb28 : ch = 0xfd ∨ ch = 0xff
    · rw [if_pos hb28]; cases b <;> cases u <;> cases r <;> rfl
    rw [if_neg hb28]
    by_cases hb29 : ch = 0x2591
    · rw [if_pos hb29]; cases b <;> cases u <;> cases r <;> rfl
    rw [if_neg hb29]
    by_cases hb30 : ch = 0x2592
    · rw [if_pos hb30]; cases b <;> cases u <;> cases r <;> rfl
    rw [if_neg hb30]
    by_cases hb31 : ch = 0x2593
    · rw [if_pos hb31]; cases b <;> cases u <;> cases r <;> rfl
    rw [if_neg hb31]
    by_cases hb32 : ch = 0x2588
    · rw [if_pos hb32]; cases b <;> cases u <;> cases r <;> rfl
    rw [if_neg hb32]
    by_cases hb33 : ch = 0xb0
    · rw [if_pos hb33]; cases b <;> cases u <;> cases r <;> rfl
    rw [if_neg hb33]
    by_cases hb34 : ch = 0xb1
    · rw [if_pos hb34]; cases b <;> cases u <;> cases r <;> rfl
    rw [if_neg hb34]
    by_cases hb35 : ch = 0x2264
    · rw [if_pos hb35]; cases b <;> cases u <;> cases r <;> rfl
    rw [if_neg hb35]
    by_cases hb36 : ch = 0x2265
    · rw [if_pos hb36]; cases b <;> cases u <;> cases r <;> rfl
    rw [if_neg hb36]
    by_cases hb37 : ch = 0x3c0
    · rw [if_pos hb37]; cases b <;> cases u <;> cases r <;> rfl
    rw [if_neg hb37]
    by_cases hb38 : ch = 0x2260
    · rw [if_pos hb38]; cases b <;> cases u <;> cases r <;> rfl
    rw [if_neg hb38]
    by_cases hb39 : ch = 0xa3
    · rw [if_pos hb39]; cases b <;> cases u <;> cases r <;> rfl
    rw [if_neg hb39]
    by_cases hb40 : ch = 0xb7 ∨ ch = 0x2022
    · rw [if_pos hb40]; cases b <;> cases u <;> cases r <;> rfl
    rw [if_neg hb40]
    by_cases hb41 : ch = 0x2018 ∨ ch = 0x2019 ∨ ch = 0x201a ∨ ch = 0x201b ∨ ch = 0x2032 ∨ ch = 0x2035
    · rw [if_pos hb41]; cases b <;> cases u <;> cases r <;> rfl
    rw [if_neg hb41]
    by_cases hb42 : ch = 0x201c ∨ ch = 0x201d ∨ ch = 0x201e ∨ ch = 0x201f ∨ ch = 0x2033 ∨ ch = 0x2036
    · rw [if_pos hb42]; cases b <;> cases u <;> cases r <;> rfl
    rw [if_neg hb42]
    by_cases hb43 : ch = 0x204e ∨ ch = 0x2055
    · rw [if_pos hb43]; cases b <;> cases u <;> cases r <;> rfl
    rw [if_neg hb43]
    by_cases hb44 : ch = 0x204f
    · rw [if_pos hb44]; cases b <;> cases u <;> cases r <;> rfl
    rw [if_neg hb44]
    by_cases hb45 : ch = 0x2052
    · rw [if_pos hb45]; cases b <;> cases u <;> cases r <;> rfl
    rw [if_neg hb45]
    by_cases hb46 : ch = 0x2053
    · rw [if_pos hb46]; cases b <;> cases u <;> cases r <;> rfl
    rw [if_neg hb46]
    rfl

theorem encodeFrom_same_slot (b u r : Bool) (s : Bool) (run : List Nat) :
    (∀ c ∈ run, (encodeChar b u r c).1 = s) → (∀ c ∈ run, c ≠ 14 ∧ c ≠ 15) →
      countSwitch (encodeFrom b u r s run).1 = 0 ∧
      (encodeFrom b u r s run).2 = s := by
  induction run with
  | nil => intro _ _; exact ⟨rfl, rfl⟩
  | cons c cs ih =>
    intro hall hclean
    have hs : (encodeChar b u r c).1 = s := hall c (by simp)
    have ihr := ih (fun x hx => hall x (by simp [hx])) (fun x hx => hclean x (by simp [hx]))
    have hpay := encodeChar_payload_clean b u r c (hclean c (by simp)).1 (hclean c (by simp)).2
    constructor
    · simp only [encodeFrom, hs, if_true, List.nil_append]
      rw [countSwitch_append, hpay, ihr.1]
    · simp only [encodeFrom, hs]
      exact ihr.2

theorem encodeFrom_append (b u r : Bool) (xs : List Nat) :
    ∀ (ia : Bool) (ys : List Nat),
      encodeFrom b u r ia (xs ++ ys) =
        ((encodeFrom b u r ia xs).1 ++
          (encodeFrom b u r (encodeFrom b u r ia xs).2 ys).1,
         (encodeFrom b u r (encodeFrom b u r ia xs).2 ys).2) := by
  induction xs with
  | nil => intro ia ys; simp [encodeFrom]
  | cons c cs ih =>
    intro ia ys
    simp only [List.cons_append, encodeFrom, List.append_eq]
    rw [ih (encodeChar b u r c).1 ys]
    simp [List.append_assoc]

theorem encodeFrom_run_switches (b u r : Bool) (s : Bool) (run : List Nat)
    (hall : ∀ c ∈ run, (encodeChar b u r c).1 = s)
    (hclean : ∀ c ∈ run, c ≠ 14 ∧ c ≠ 15) :
    ∀ ia : Bool, countSwitch (encodeFrom b u r ia run).1 ≤ 1 := by
  intro ia
  cases run with
  | nil => simp [encodeFrom, countSwitch]
  | cons c cs =>
    have hs : (encodeChar b u r c).1 = s := hall c (by simp)
    have htail := encodeFrom_same_slot b u r s cs
      (fun x hx => hall x (by simp [hx])) (fun x hx => hclean x (by simp [hx]))
    have hpay := encodeChar_payload_clean b u r c (hclean c (by simp)).1 (hclean c (by simp)).2
    by_cases hia : s = ia
    · subst hia
      have := encodeFrom_same_slot b u r s (c :: cs) hall hclean
      omega
    · simp only [encodeFrom, hs, if_neg (by intro hh; exact hia hh)]
      rw [countSwitch_append, countSwitch_append]
      rw [hpay, htail.1]
      have hpre : countSwitch (if s = true then [14] else [15]) = 1 := by
        cases s <;> simp [countSwitch]
      omega

/-- Claim C8, counterexample: the two characters `\x0E \x0E` form a run
of two consecutive characters mapping to the same (default) graphic
slot, yet the bytes `sendText` emits for them contain two slot-switch
bytes, not at most one — the encoder passes raw shift-out/shift-in
characters through as data. -/
theorem C8_raw_shift_counterexample :
    (∀ c ∈ [14, 14],
      (encodeChar initTermState.bolded initTermState.underlined initTermState.reversed c).1 =
        false) ∧
    (sendText initTermState [14, 14]).out = [14, 14] ∧
    ¬countSwitch (sendText initTermState [14, 14]).out ≤ 1 := by
  refine ⟨?_, ?_, ?_⟩ <;> decide

/-- Claim C8, amended: for every string and every run of consecutive
characters inside it that map to the same graphic slot, none of which
is itself a raw shift-out/shift-in byte (`0x0E`/`0x0F`), the bytes
`sendText` emits for that run contain at most one slot-switch byte,
regardless of the run's length: the encoder emits a switch byte only at
a slot transition, never per character. -/
theorem C8_slot_switch_amended (st : TermState) (pre run suf : List Nat) (s : Bool)
    (hall : ∀ c ∈ run,
      (encodeChar st.bolded st.underlined st.reversed c).1 = s)
    (hclean : ∀ c ∈ run, c ≠ 14 ∧ c ≠ 15) :
    ∃ b1 b3 : List Nat,
      (sendText st (pre ++ run ++ suf)).out =
        st.out ++ b1 ++
          (encodeFrom st.bolded st.underlined st.reversed
            (encodeFrom st.bolded st.underlined st.reversed st.boxMode pre).2 run).1 ++ b3 ∧
      countSwitch
        (encodeFrom st.bolded st.underlined st.reversed
          (encodeFrom st.bolded st.underlined st.reversed st.boxMode pre).2 run).1 ≤ 1 := by
  refine ⟨(encodeFrom st.bolded st.underlined st.reversed st.boxMode pre).1,
    (encodeFrom st.bolded st.underlined st.reversed
      (encodeFrom st.bolded st.underlined st.reversed
        (encodeFrom st.bolded st.underlined st.reversed st.boxMode pre).2 run).2 suf).1,
    ?_, ?_⟩
  · simp only [sendText, encodeFrom_append, List.append_assoc]
  · exact encodeFrom_run_switches st.bolded st.underlined st.reversed s run hall hclean _

/-- Witness for C8 at a concrete run of three box-drawing characters
(all in the alternate slot), preceded and followed by plain text. -/
theorem C8_slot_switch_amended_witness :
    ∃ b1 b3 : List Nat,
      (sendText initTermState ([97] ++ [0x2500, 0x2502, 0x250c] ++ [98])).out =
        initTermState.out ++ b1 ++
          (encodeFrom false false false
            (encodeFrom false false false false [97]).2 [0x2500, 0x2502, 0x250c]).1 ++ b3 ∧
      countSwitch
        (encodeFrom false false false
          (encodeFrom false false false false [97]).2 [0x2500, 0x2502, 0x250c]).1 ≤ 1 :=
  C8_slot_switch_amended initTermState [97] [0x2500, 0x2502, 0x250c] [98] true
    (by decide) (by decide)

/-- Claim C5, counterexample: the frame `ESC [ R` passes the shape check
(first byte `[`, last byte `R`) but its interior has no `;`, so the
two-variable unpacking of `split` raises an uncaught `ValueError`
(modelled `FetchOut.parseError`) — contradicting the claim that a
shape-passing frame yields a parsed pair and that nothing but
`TerminalUnresponsive` is ever raised. -/
theorem C5_malformed_report_counterexample :
    (fetchCursor 5 40 { initTermState with
        tape := List.map some [27, 91, 82] }).map Prod.fst =
      some FetchOut.parseError ∧
    (∀ r c : Int, FetchOut.parseError ≠ FetchOut.ok r c) ∧
    FetchOut.parseError ≠ FetchOut.unresponsive := by
  refine ⟨by decide, fun r c hh => FetchOut.noConfusion hh, by decide⟩

/-- Claim C5, amended: `fetchCursor` returns the cached cursor
immediately when it is known; otherwise it sends the cursor request and
loops at most 12 attempts, re-sending on an empty read and discarding
frames not shaped `[...R`; a shape-passing frame whose interior is two
`;`-separated nonempty digit strings ends the loop with the parsed
pair, but a shape-passing frame with any other interior raises an
uncaught parse error; exhausting all 12 attempts raises the fatal
`TerminalUnresponsive`.  In particular garbage `ESC[Zm` followed by
`ESC[3;4R` yields `(3, 4)`, and a silent line yields
`TerminalUnresponsive`. -/
theorem C5_fetchCursor_amended :
    (∀ (fO fI : Nat) (st : TermState), st.cursor.1 ≠ -1 → st.cursor.2 ≠ -1 →
      fetchCursor fO fI st = some (.ok st.cursor.1 st.cursor.2, st)) ∧
    (fetchCursor 5 40 { initTermState with
        tape := List.map some [27, 91, 90, 109, 27, 91, 51, 59, 52, 82] }).map Prod.fst =
      some (.ok 3 4) ∧
    (fetchCursor 5 40 initTermState).map Prod.fst = some .unresponsive := by
  refine ⟨?_, by decide, by decide⟩
  intro fO fI st h1 h2
  unfold fetchCursor
  rw [if_pos ⟨h1, h2⟩]

/-- Witness for C5's general conjunct at a known cached cursor. -/
theorem C5_fetchCursor_amended_witness :
    fetchCursor 1 1 { initTermState with cursor := (2, 3) } =
      some (.ok 2 3, { initTermState with cursor := (2, 3) }) :=
  C5_fetchCursor_amended.1 1 1 { initTermState with cursor := (2, 3) }
    (by decide) (by decide)

theorem recvImpl_pending_mono (ht : Bool) (dl : Nat) :
    ∀ (fuel : Nat) (st : TermState) (a : List Nat) (g : Bool) (r : Nat) (resp : List Nat)
      (st' : TermState), recvImpl ht dl fuel st a g r = some (resp, st') →
      ∃ ks, st'.pending = st.pending ++ ks := by
  intro fuel
  induction fuel with
  | zero =>
    intro st a g r resp st' h
    exact absurd h (by simp [recvImpl])
  | succ n ih =>
    intro st a g r resp st' h
    obtain ⟨l, p, rs, tp, o, rv, b, u, aw, bm, c, rw, cu, lms, lm⟩ := st
    cases l with
    | cons bb rest =>
      obtain ⟨ks, hks⟩ := ih _ _ _ _ _ _ h
      exact ⟨ks, hks⟩
    | nil =>
      cases tp with
      | cons hd ts =>
        cases hd with
        | some bb =>
          obtain ⟨ks, hks⟩ := ih _ _ _ _ _ _ h
          exact ⟨ks, hks⟩
        | none =>
          simp only [recvImpl] at h
          split at h
          case isTrue =>
            split at h
            case h_1 body heq =>
              split at h
              case h_1 i hidx =>
                obtain ⟨rfl, rfl⟩ := Prod.mk.inj (Option.some.inj h)
                exact ⟨_, rfl⟩
              case h_2 hidx =>
                obtain ⟨ks, hks⟩ := ih _ _ _ _ _ _ h
                exact ⟨_ , by simp only at hks; rw [hks, List.append_assoc]⟩
            case h_2 heq =>
              split at h
              case isTrue =>
                obtain ⟨rfl, rfl⟩ := Prod.mk.inj (Option.some.inj h)
                exact ⟨_, rfl⟩
              case isFalse =>
                obtain ⟨ks, hks⟩ := ih _ _ _ _ _ _ h
                exact ⟨_, by simp only at hks; rw [hks, List.append_assoc]⟩
          case isFalse =>
            obtain ⟨ks, hks⟩ := ih _ _ _ _ _ _ h
            exact ⟨ks, hks⟩
      | nil =>
        simp only [recvImpl] at h
        split at h
        case isTrue =>
          split at h
          case h_1 body heq =>
            split at h
            case h_1 i hidx =>
              obtain ⟨rfl, rfl⟩ := Prod.mk.inj (Option.some.inj h)
              exact ⟨_, rfl⟩
            case h_2 hidx =>
              obtain ⟨ks, hks⟩ := ih _ _ _ _ _ _ h
              exact ⟨_, by simp only at hks; rw [hks, List.append_assoc]⟩
          case h_2 heq =>
            split at h
            case isTrue =>
              obtain ⟨rfl, rfl⟩ := Prod.mk.inj (Option.some.inj h)
              exact ⟨_, rfl⟩
            case isFalse =>
              obtain ⟨ks, hks⟩ := ih _ _ _ _ _ _ h
              exact ⟨_, by simp only at hks; rw [hks, List.append_assoc]⟩
        case isFalse =>
          obtain ⟨ks, hks⟩ := ih _ _ _ _ _ _ h
          exact ⟨ks, hks⟩

theorem recvResp_no_arrow (fI : Nat) (ht : Bool) (dl : Nat) :
    ∀ (fuel : Nat) (st : TermState) (resp : List Nat) (st' : TermState),
      recvResp fI ht dl fuel st = some (resp, st') →
      isArrow resp = false ∧ ∃ ks, st'.pending = st.pending ++ ks := by
  intro fuel
  induction fuel with
  | zero =>
    intro st resp st' h
    exact absurd h (by simp [recvResp])
  | succ n ih =>
    intro st resp st' h
    rw [recvResp] at h
    cases hE : recvImpl ht dl fI st [] false 0 with
    | none => rw [hE] at h; exact absurd h (by simp)
    | some v =>
      obtain ⟨r0, st0⟩ := v
      rw [hE] at h
      obtain ⟨ks0, hks0⟩ := recvImpl_pending_mono ht dl fI st [] false 0 r0 st0 hE
      by_cases ha : isArrow r0 = true
      · simp only [ha, if_true] at h
        obtain ⟨hnoarr, ks, hks⟩ := ih _ resp st' h
        refine ⟨hnoarr, ks0 ++ [r0] ++ ks, ?_⟩
        simp only at hks
        rw [hks, hks0]
        simp [List.append_assoc]
      · have ha' : isArrow r0 = false := eq_false_of_ne_true ha
        simp only [ha', Bool.false_eq_true, if_false] at h
        obtain ⟨rfl, rfl⟩ := Prod.mk.inj (Option.some.inj h)
        exact ⟨ha', ks0, hks0⟩

/-- Claim C3: `recvResponse` never returns one of the four arrow-key
frames (given that the parsed-responses queue holds no arrow frame,
which is how the engine fills it): whenever an arrow frame is parsed it
is appended to the pending-input queue — the pending queue only ever
grows at the tail during the call — and the response read repeats, so
arrow keys surface only through `peekInput`/`recvInput`. -/
theorem C3_no_arrow_from_recvResponse (fO fI : Nat) (ht : Bool) (dl : Nat) (st : TermState)
    (hresp : ∀ x ∈ st.responses, isArrow x = false) (resp : List Nat) (st' : TermState)
    (h : recvResponse fO fI ht dl st = some (resp, st')) :
    isArrow resp = false ∧ ∃ ks, st'.pending = st.pending ++ ks := by
  unfold recvResponse at h
  cases hr : st.responses with
  | cons r0 rs =>
    rw [hr] at h
    obtain ⟨rfl, rfl⟩ := Prod.mk.inj (Option.some.inj h)
    exact ⟨hresp _ (by rw [hr]; exact List.mem_cons_self _ _), [], by simp⟩
  | nil =>
    rw [hr] at h
    exact recvResp_no_arrow fI ht dl fO st resp st' h

/-- Witness for C3: an up-arrow frame on the wire is not returned (the
call yields an empty response) and lands in the pending queue. -/
theorem C3_no_arrow_from_recvResponse_witness :
    isArrow [] = false ∧
    ∃ ks, ({ initTermState with pending := [[91, 65]] } : TermState).pending =
      ({ initTermState with tape := List.map some [27, 91, 65] } : TermState).pending ++ ks :=
  C3_no_arrow_from_recvResponse 3 10 true 0
    { initTermState with tape := List.map some [27, 91, 65] } (by decide) []
    { initTermState with pending := [[91, 65]] } (by decide)

theorem afterPlain_nil : afterPlain [] = [] := rfl

theorem afterPlain_plain (b : Nat) (ts : List Tok) :
    afterPlain (.plain b :: ts) = afterPlain ts := rfl

theorem afterPlain_frame (cs : List Nat) (t : Nat) (ts : List Tok) :
    afterPlain (.frame cs t :: ts) = .frame cs t :: ts := rfl

theorem leadPlain_nil : leadPlain [] = [] := rfl

theorem leadPlain_plain (b : Nat) (ts : List Tok) :
    leadPlain (.plain b :: ts) = b :: leadPlain ts := rfl

theorem leadPlain_frame (cs : List Nat) (t : Nat) (ts : List Tok) :
    leadPlain (.frame cs t :: ts) = [] := rfl

theorem wireOf_decomp (ts : List Tok) :
    wireOf ts = leadPlain ts ++ wireOf (afterPlain ts) := by
  induction ts with
  | nil => rfl
  | cons t rest ih =>
    cases t with
    | plain b => simp only [wireOf, leadPlain_plain, afterPlain_plain, Tok.wire, ih,
        List.cons_append, List.singleton_append, List.nil_append]
    | frame cs tb => simp [leadPlain_frame, afterPlain_frame]

theorem afterPlain_length (ts : List Tok) : (afterPlain ts).length ≤ ts.length := by
  induction ts with
  | nil => simp [afterPlain]
  | cons t rest ih =>
    cases t with
    | plain b =>
      rw [afterPlain_plain]
      simp only [List.length_cons]
      omega
    | frame cs tb => simp [afterPlain_frame]

theorem afterPlain_not_plain (ts : List Tok) :
    ∀ (b : Nat) (rest : List Tok), afterPlain ts = .plain b :: rest → False := by
  induction ts with
  | nil => intro b rest h; exact absurd h (by simp [afterPlain])
  | cons t ts2 ih =>
    intro b rest h
    cases t with
    | plain b2 => exact ih b rest h
    | frame cs tb => rw [afterPlain_frame] at h; exact Tok.noConfusion (List.cons.inj h).1

theorem WFt_cons (t : Tok) (ts : List Tok) : WFt (t :: ts) ↔ t.wfB = true ∧ WFt ts := by
  simp [WFt]

theorem WFt_afterPlain (ts : List Tok) (h : WFt ts) : WFt (afterPlain ts) := by
  induction ts with
  | nil => exact h
  | cons t ts2 ih =>
    rw [WFt_cons] at h
    cases t with
    | plain b => exact ih h.2
    | frame cs tb => rw [afterPlain_frame, WFt_cons]; exact h

theorem pumpSpec_noframe (ts : List Tok) (h : afterPlain ts = []) :
    pumpSpec ts = ((leadPlain ts).map (fun b => [b]), [], []) := by
  induction ts with
  | nil => rfl
  | cons t ts2 ih =>
    cases t with
    | plain b =>
      rw [afterPlain_plain] at h
      simp only [pumpSpec, leadPlain_plain, ih h, List.map_cons]
    | frame cs tb => rw [afterPlain_frame] at h; exact absurd h (by simp)

theorem pumpSpec_frame_arrow (ts : List Tok) (cs : List Nat) (t : Nat) (rest : List Tok)
    (h : afterPlain ts = .frame cs t :: rest) (ha : isArrow (cs ++ [t]) = true) :
    pumpSpec ts = ((leadPlain ts).map (fun b => [b]) ++ (cs ++ [t]) :: (pumpSpec rest).1,
      (pumpSpec rest).2.1, (pumpSpec rest).2.2) := by
  induction ts with
  | nil => rw [afterPlain_nil] at h; exact absurd h (by simp)
  | cons tk ts2 ih =>
    cases tk with
    | plain b =>
      rw [afterPlain_plain] at h
      simp only [pumpSpec, leadPlain_plain, ih h, List.map_cons, List.cons_append]
    | frame cs2 tb =>
      rw [afterPlain_frame] at h
      obtain ⟨h1, h2⟩ := List.cons.inj h
      obtain ⟨rfl, rfl⟩ := Tok.frame.inj h1
      subst h2
      simp only [pumpSpec, ha, if_true, leadPlain_frame, List.map_nil, List.nil_append]

theorem pumpSpec_frame_resp (ts : List Tok) (cs : List Nat) (t : Nat) (rest : List Tok)
    (h : afterPlain ts = .frame cs t :: rest) (ha : isArrow (cs ++ [t]) = false) :
    pumpSpec ts = ((leadPlain ts).map (fun b => [b]), cs ++ [t], rest) := by
  induction ts with
  | nil => rw [afterPlain_nil] at h; exact absurd h (by simp)
  | cons tk ts2 ih =>
    cases tk with
    | plain b =>
      rw [afterPlain_plain] at h
      simp only [pumpSpec, leadPlain_plain, ih h, List.map_cons]
    | frame cs2 tb =>
      rw [afterPlain_frame] at h
      obtain ⟨h1, h2⟩ := List.cons.inj h
      obtain ⟨rfl, rfl⟩ := Tok.frame.inj h1
      subst h2
      simp only [pumpSpec, ha, Bool.false_eq_true, if_false, leadPlain_frame, List.map_nil]

theorem pumpSpec_keysOf (ts : List Tok) :
    keysOf ts = (pumpSpec ts).1 ++ keysOf (pumpSpec ts).2.2 := by
  induction ts with
  | nil => rfl
  | cons t ts2 ih =>
    cases t with
    | plain b => simp only [keysOf, Tok.keys, pumpSpec, ih, List.cons_append,
        List.singleton_append, List.nil_append]
    | frame cs tb =>
      by_cases ha : isArrow (cs ++ [tb]) = true
      · simp only [keysOf, Tok.keys, ha, if_true, pumpSpec, ih, List.cons_append,
          List.singleton_append, List.nil_append]
      · have ha' : isArrow (cs ++ [tb]) = false := eq_false_of_ne_true ha
        simp only [keysOf, Tok.keys, ha', Bool.false_eq_true, if_false, pumpSpec,
          List.nil_append]

theorem pumpSpec_resp_nil (ts : List Tok) (h : (pumpSpec ts).2.1 = []) :
    (pumpSpec ts).2.2 = [] ∧ respsOf ts = [] := by
  induction ts with
  | nil => exact ⟨rfl, rfl⟩
  | cons t ts2 ih =>
    cases t with
    | plain b =>
      simp only [pumpSpec] at h ⊢
      exact ⟨(ih h).1, by simp only [respsOf]; exact (ih h).2⟩
    | frame cs tb =>
      by_cases ha : isArrow (cs ++ [tb]) = true
      · simp only [pumpSpec, ha, if_true] at h ⊢
        exact ⟨(ih h).1, by simp only [respsOf, ha, if_true]; exact (ih h).2⟩
      · have ha' : isArrow (cs ++ [tb]) = false := eq_false_of_ne_true ha
        simp only [pumpSpec, ha', Bool.false_eq_true, if_false] at h
        exact absurd h (by simp)

theorem pumpSpec_resp_cons (ts : List Tok) (h : (pumpSpec ts).2.1 ≠ []) :
    respsOf ts = (pumpSpec ts).2.1 :: respsOf (pumpSpec ts).2.2 ∧
    (pumpSpec ts).2.2.length < ts.length := by
  induction ts with
  | nil => exact absurd rfl h
  | cons t ts2 ih =>
    cases t with
    | plain b =>
      simp only [pumpSpec] at h ⊢
      obtain ⟨ih1, ih2⟩ := ih h
      exact ⟨by simp only [respsOf]; exact ih1, by simp only [List.length_cons]; omega⟩
    | frame cs tb =>
      by_cases ha : isArrow (cs ++ [tb]) = true
      · simp only [pumpSpec, ha, if_true] at h ⊢
        obtain ⟨ih1, ih2⟩ := ih h
        exact ⟨by simp only [respsOf, ha, if_true]; exact ih1,
          by simp only [List.length_cons]; omega⟩
      · have ha' : isArrow (cs ++ [tb]) = false := eq_false_of_ne_true ha
        simp only [pumpSpec, ha', Bool.false_eq_true, if_false]
        refine ⟨by simp only [respsOf, ha', Bool.false_eq_true, if_false], ?_⟩
        simp only [List.length_cons]
        omega

theorem pumpSpec_wf (ts : List Tok) (h : WFt ts) : WFt (pumpSpec ts).2.2 := by
  induction ts with
  | nil => exact h
  | cons t ts2 ih =>
    rw [WFt_cons] at h
    cases t with
    | plain b => simp only [pumpSpec]; exact ih h.2
    | frame cs tb =>
      by_cases ha : isArrow (cs ++ [tb]) = true
      · simp only [pumpSpec, ha, if_true]; exact ih h.2
      · have ha' : isArrow (cs ++ [tb]) = false := eq_false_of_ne_true ha
        simp only [pumpSpec, ha', Bool.false_eq_true, if_false]
        exact h.2

theorem pumpSpec_wire_le (ts : List Tok) :
    (wireOf (pumpSpec ts).2.2).length ≤ (wireOf ts).length := by
  induction ts with
  | nil => exact Nat.le_refl _
  | cons t ts2 ih =>
    cases t with
    | plain b =>
      simp only [pumpSpec, wireOf, Tok.wire, List.singleton_append, List.length_cons]
      omega
    | frame cs tb =>
      by_cases ha : isArrow (cs ++ [tb]) = true
      · simp only [pumpSpec, ha, if_true, wireOf, Tok.wire, List.length_append]
        omega
      · have ha' : isArrow (cs ++ [tb]) = false := eq_false_of_ne_true ha
        simp only [pumpSpec, ha', Bool.false_eq_true, if_false, wireOf, Tok.wire,
          List.length_append]
        omega

theorem takeWhile_wireOf (ts : List Tok) (h : WFt ts) :
    (wireOf ts).takeWhile (fun c => c != 27) = leadPlain ts := by
  induction ts with
  | nil => rfl
  | cons t rest ih =>
    rw [WFt_cons] at h
    cases t with
    | plain b =>
      have hb : (b != 27) = true := h.1
      simp only [wireOf, Tok.wire, List.singleton_append, leadPlain_plain,
        List.takeWhile_cons, hb, if_true]
      rw [ih h.2]
    | frame cs tb =>
      simp [wireOf, Tok.wire, leadPlain_frame, List.takeWhile_cons]

theorem dropWhile_wireOf (ts : List Tok) (h : WFt ts) :
    (wireOf ts).dropWhile (fun c => c != 27) = wireOf (afterPlain ts) := by
  induction ts with
  | nil => rfl
  | cons t rest ih =>
    rw [WFt_cons] at h
    cases t with
    | plain b =>
      have hb : (b != 27) = true := h.1
      simp only [wireOf, Tok.wire, List.singleton_append, afterPlain_plain,
        List.dropWhile_cons, hb, if_true]
      exact ih h.2
    | frame cs tb =>
      simp [wireOf, Tok.wire, afterPlain_frame, List.dropWhile_cons]

theorem findIdx_cont (cs : List Nat) (t : Nat) (w : List Nat)
    (hcs : cs.all contB = true) (htb : contB t = false) :
    (cs ++ t :: w).findIdx? (fun c => !contB c) = some cs.length := by
  induction cs with
  | nil =>
    simp only [List.nil_append, List.findIdx?_cons, htb, Bool.not_false, if_true,
      List.length_nil]
  | cons c cs2 ih =>
    simp only [List.all_cons, Bool.and_eq_true] at hcs
    simp only [List.cons_append, List.findIdx?_cons, hcs.1, Bool.not_true,
      Bool.false_eq_true, if_false, List.findIdx?_succ, ih hcs.2, List.length_cons]
    rfl

theorem take_frame (cs : List Nat) (t : Nat) (w : List Nat) :
    (cs ++ t :: w).take (cs.length + 1) = cs ++ [t] := by
  induction cs with
  | nil => rfl
  | cons c cs2 ih => simp only [List.cons_append, List.length_cons, List.take_succ_cons,
      ih, List.singleton_append]

theorem drop_frame (cs : List Nat) (t : Nat) (w : List Nat) :
    (cs ++ t :: w).drop (cs.length + 1) = w := by
  induction cs with
  | nil => rfl
  | cons c cs2 ih => simpa using ih

theorem recvImpl_drain (ht : Bool) (dl : Nat) (st : TermState) :
    ∀ (l w : List Nat) (fuel : Nat) (a : List Nat) (g : Bool) (r : Nat)
      (T : List (Option Nat)),
      recvImpl ht dl (fuel + w.length + l.length)
          { st with leftover := l, tape := List.map some w ++ T } a g r =
        recvImpl ht dl fuel { st with leftover := [], tape := T } ((a ++ l) ++ w)
          (g || !l.isEmpty || !w.isEmpty) (r + w.length) := by
  obtain ⟨l0, p, rs, tp, o, rv, bb, uu, aw, bm, c, rw0, cu, lms, lm⟩ := st
  intro l
  induction l with
  | nil =>
    intro w
    induction w with
    | nil =>
      intro fuel a g r T
      simp
    | cons b bs ihw =>
      intro fuel a g r T
      refine Eq.trans (Eq.trans rfl (ihw fuel (a ++ [b]) true (r + 1) T)) ?_
      have hA : ((a ++ [b]) ++ ([] : List Nat)) ++ bs = (a ++ ([] : List Nat)) ++ b :: bs := by
        simp
      have hG : (true || !([] : List Nat).isEmpty || !bs.isEmpty)
          = (g || !([] : List Nat).isEmpty || !(b :: bs).isEmpty) := by simp
      have hR : r + 1 + bs.length = r + (b :: bs).length := by
        simp only [List.length_cons]
        omega
      rw [hA, hG, hR]
  | cons b bs ihl =>
    intro w fuel a g r T
    refine Eq.trans (Eq.trans rfl (ihl w fuel (a ++ [b]) true r T)) ?_
    have hA : ((a ++ [b]) ++ bs) ++ w = (a ++ b :: bs) ++ w := by simp
    have hG : (true || !bs.isEmpty || !w.isEmpty)
        = (g || !(b :: bs).isEmpty || !w.isEmpty) := by simp
    rw [hA, hG]

theorem wireOf_nil : wireOf [] = [] := rfl

theorem recvImpl_flush_noframe (st : TermState) (ts : List Tok) (h : WFt ts)
    (hap : afterPlain ts = []) (fuel : Nat) (g : Bool) (r : Nat) :
    recvImpl true 0 (fuel + 1) { st with leftover := [], tape := [] } (wireOf ts) g r =
      some ([], { st with
        leftover := []
        tape := []
        pending := st.pending ++ (leadPlain ts).map (fun b => [b]) }) := by
  obtain ⟨l0, p, rs, tp, o, rv, bb, uu, aw, bm, c, rw0, cu, lms, lm⟩ := st
  simp only [recvImpl, takeWhile_wireOf ts h, dropWhile_wireOf ts h, hap, wireOf_nil]
  simp

theorem recvImpl_flush_frame (st : TermState) (ts : List Tok) (h : WFt ts)
    (cs : List Nat) (t : Nat) (rest : List Tok)
    (hap : afterPlain ts = .frame cs t :: rest) (fuel : Nat) (g : Bool) (r : Nat) :
    recvImpl true 0 (fuel + 1) { st with leftover := [], tape := [] } (wireOf ts) g r =
      some (cs ++ [t], { st with
        leftover := wireOf rest
        tape := []
        pending := st.pending ++ (leadPlain ts).map (fun b => [b]) }) := by
  have hwf : WFt (Tok.frame cs t :: rest) := hap ▸ WFt_afterPlain ts h
  rw [WFt_cons] at hwf
  have hfr : (cs.all contB && !contB t) = true := hwf.1
  rw [Bool.and_eq_true] at hfr
  have hnt : contB t = false := by
    have h2 := hfr.2
    cases hcb : contB t
    · rfl
    · rw [hcb] at h2; exact absurd h2 (by simp)
  have hw : wireOf (Tok.frame cs t :: rest) = 27 :: (cs ++ t :: wireOf rest) := by
    simp [wireOf, Tok.wire]
  obtain ⟨l0, p, rs, tp, o, rv, bb, uu, aw, bm, c, rw0, cu, lms, lm⟩ := st
  simp only [recvImpl, takeWhile_wireOf ts h, dropWhile_wireOf ts h, hap, hw,
    findIdx_cont cs t (wireOf rest) hfr.1 hnt, take_frame, drop_frame]
  simp

theorem recvImpl_run_noframe (st : TermState) (ts : List Tok) (h : WFt ts)
    (hap : afterPlain ts = []) (l w : List Nat) (hlw : l ++ w = wireOf ts)
    (fuel : Nat) (g : Bool) (r : Nat) :
    recvImpl true 0 ((fuel + 1) + w.length + l.length)
        { st with leftover := l, tape := List.map some w } [] g r =
      some ([], { st with
        leftover := []
        tape := []
        pending := st.pending ++ (leadPlain ts).map (fun b => [b]) }) := by
  have hd := recvImpl_drain true 0 st l w (fuel + 1) [] g r []
  rw [List.append_nil] at hd
  rw [hd]
  have ha : (([] : List Nat) ++ l) ++ w = wireOf ts := by rw [List.nil_append, hlw]
  rw [ha]
  exact recvImpl_flush_noframe st ts h hap fuel _ _

theorem recvImpl_run_frame (st : TermState) (ts : List Tok) (h : WFt ts)
    (cs : List Nat) (t : Nat) (rest : List Tok)
    (hap : afterPlain ts = .frame cs t :: rest) (l w : List Nat) (hlw : l ++ w = wireOf ts)
    (fuel : Nat) (g : Bool) (r : Nat) :
    recvImpl true 0 ((fuel + 1) + w.length + l.length)
        { st with leftover := l, tape := List.map some w } [] g r =
      some (cs ++ [t], { st with
        leftover := wireOf rest
        tape := []
        pending := st.pending ++ (leadPlain ts).map (fun b => [b]) }) := by
  have hd := recvImpl_drain true 0 st l w (fuel + 1) [] g r []
  rw [List.append_nil] at hd
  rw [hd]
  have ha : (([] : List Nat) ++ l) ++ w = wireOf ts := by rw [List.nil_append, hlw]
  rw [ha]
  exact recvImpl_flush_frame st ts h cs t rest hap fuel _ _

theorem isArrow_nil : isArrow [] = false := rfl

theorem recvResp_run :
    ∀ (n : Nat) (ts : List Tok), ts.length ≤ n → WFt ts →
      ∀ (st : TermState) (l w : List Nat), l ++ w = wireOf ts →
      ∀ (fO fI : Nat), ts.length + 1 ≤ fO → l.length + w.length + 1 ≤ fI →
      recvResp fI true 0 fO { st with leftover := l, tape := List.map some w } =
        some ((pumpSpec ts).2.1, { st with
          leftover := wireOf (pumpSpec ts).2.2
          tape := []
          pending := st.pending ++ (pumpSpec ts).1 }) := by
  intro n
  induction n with
  | zero =>
    intro ts hlen hwf st l w hlw fO fI hfO hfI
    have hts : ts = [] := List.eq_nil_of_length_eq_zero (Nat.le_zero.mp hlen)
    subst hts
    cases fO with
    | zero => omega
    | succ fO2 =>
      obtain ⟨fu, hfu⟩ : ∃ fu, fI = (fu + 1) + w.length + l.length :=
        ⟨fI - 1 - w.length - l.length, by omega⟩
      rw [recvResp, hfu,
        recvImpl_run_noframe st [] hwf afterPlain_nil l w hlw fu false 0]
      simp only [isArrow_nil, Bool.false_eq_true, if_false,
        pumpSpec_noframe [] afterPlain_nil, leadPlain_nil, List.map_nil, wireOf_nil]
  | succ n ih =>
    intro ts hlen hwf st l w hlw fO fI hfO hfI
    cases fO with
    | zero => omega
    | succ fO2 =>
      obtain ⟨fu, hfu⟩ : ∃ fu, fI = (fu + 1) + w.length + l.length :=
        ⟨fI - 1 - w.length - l.length, by omega⟩
      cases hap : afterPlain ts with
      | nil =>
        rw [recvResp, hfu, recvImpl_run_noframe st ts hwf hap l w hlw fu false 0]
        simp only [isArrow_nil, Bool.false_eq_true, if_false,
          pumpSpec_noframe ts hap, wireOf_nil]
      | cons tk rest =>
        cases tk with
        | plain b => exact absurd hap (fun hh => afterPlain_not_plain ts b rest hh)
        | frame cs t =>
          rw [recvResp, hfu, recvImpl_run_frame st ts hwf cs t rest hap l w hlw fu false 0]
          by_cases hArr : isArrow (cs ++ [t]) = true
          · simp only [hArr, if_true]
            have hlen2 : rest.length + 1 ≤ ts.length := by
              have h1 := afterPlain_length ts
              rw [hap] at h1
              simp only [List.length_cons] at h1
              omega
            have hwire2 : (wireOf rest).length < (wireOf ts).length := by
              conv_rhs => rw [wireOf_decomp ts, hap]
              simp [wireOf, Tok.wire, List.length_append]
              omega
            have hwlen : (wireOf ts).length = l.length + w.length := by
              rw [← hlw, List.length_append]
            have ihr := ih rest (by omega) (by
                have h2 := WFt_afterPlain ts hwf
                rw [hap, WFt_cons] at h2
                exact h2.2)
              { st with pending :=
                  (st.pending ++ (leadPlain ts).map (fun b => [b])) ++ [cs ++ [t]] }
              (wireOf rest) [] (by rw [List.append_nil]) fO2 (fu + 1 + w.length + l.length)
              (by omega) (by simp only [List.length_nil]; omega)
            simp only [List.map_nil] at ihr
            rw [show (pumpSpec ts).2.1 = (pumpSpec rest).2.1 from by
                rw [pumpSpec_frame_arrow ts cs t rest hap hArr],
              show (pumpSpec ts).2.2 = (pumpSpec rest).2.2 from by
                rw [pumpSpec_frame_arrow ts cs t rest hap hArr],
              show (pumpSpec ts).1 =
                  (leadPlain ts).map (fun b => [b]) ++ (cs ++ [t]) :: (pumpSpec rest).1 from by
                rw [pumpSpec_frame_arrow ts cs t rest hap hArr]]
            rw [ihr]
            simp [List.append_assoc]
          · have hArr' : isArrow (cs ++ [t]) = false := eq_false_of_ne_true hArr
            simp only [hArr', Bool.false_eq_true, if_false]
            rw [pumpSpec_frame_resp ts cs t rest hap hArr']

theorem reduceOption_map_some (l : List (List Nat)) :
    (l.map some).reduceOption = l := by
  induction l with
  | nil => rfl
  | cons x xs ih => simp [List.reduceOption_cons_of_some, ih]

theorem driveN_append (fO fI : Nat) :
    ∀ (m : Nat) (n : Nat) (st : TermState) (os : List (Option (List Nat))) (st1 : TermState)
      (os2 : List (Option (List Nat))) (st2 : TermState),
      driveN fO fI m st = some (os, st1) → driveN fO fI n st1 = some (os2, st2) →
      driveN fO fI (m + n) st = some (os ++ os2, st2) := by
  intro m
  induction m with
  | zero =>
    intro n st os st1 os2 st2 h1 h2
    rw [driveN] at h1
    obtain ⟨rfl, rfl⟩ := Prod.mk.inj (Option.some.inj h1)
    rw [Nat.zero_add]
    simpa using h2
  | succ m ih =>
    intro n st os st1 os2 st2 h1 h2
    rw [driveN] at h1
    rw [Nat.succ_add, driveN]
    cases hri : recvInput fO fI st with
    | none => rw [hri] at h1; exact absurd h1 (by simp)
    | some v =>
      obtain ⟨o, st3⟩ := v
      rw [hri, Option.some_bind] at h1
      cases hdr : driveN fO fI m st3 with
      | none => rw [hdr] at h1; exact absurd h1 (by simp)
      | some v2 =>
        obtain ⟨os3, st4⟩ := v2
        rw [hdr, Option.some_bind] at h1
        obtain ⟨h3, rfl⟩ := Prod.mk.inj (Option.some.inj h1)
        subst h3
        have h4 := ih n st3 os3 st4 os2 st2 hdr h2
        simp [h4]

theorem driveN_pops (fO fI : Nat) :
    ∀ (ks : List (List Nat)) (st : TermState),
      driveN fO fI ks.length { st with pending := ks } =
        some (ks.map some, { st with pending := [] }) := by
  intro ks
  induction ks with
  | nil => intro st; rfl
  | cons k ks2 ih =>
    intro st
    have hstep : recvInput fO fI { st with pending := k :: ks2 } =
        some (some k, { st with pending := ks2 }) := rfl
    rw [show (k :: ks2).length = ks2.length + 1 from rfl, driveN]
    rw [hstep, Option.some_bind]
    have h4 := ih st
    simp [h4]

theorem recvInput_pump (st : TermState) (ts : List Tok) (hwf : WFt ts)
    (l w : List Nat) (hlw : l ++ w = wireOf ts) (fO fI : Nat)
    (hfO : ts.length + 1 ≤ fO) (hfI : l.length + w.length + 1 ≤ fI) :
    recvInput fO fI { st with pending := [], leftover := l, tape := List.map some w } =
      some ((pumpSpec ts).1.head?,
        { st with
          pending := (pumpSpec ts).1.tail
          leftover := wireOf (pumpSpec ts).2.2
          tape := []
          responses := st.responses ++
            (if (pumpSpec ts).2.1.isEmpty then [] else [(pumpSpec ts).2.1]) }) := by
  have hrr := recvResp_run ts.length ts (Nat.le_refl _) hwf { st with pending := [] }
    l w hlw fO fI hfO hfI
  simp only [recvInput]
  rw [show ({ st with pending := [], leftover := l, tape := List.map some w } : TermState) =
      { ({ st with pending := [] } : TermState) with leftover := l, tape := List.map some w }
    from rfl]
  rw [hrr]
  simp only [List.nil_append]
  cases hk : (pumpSpec ts).1 with
  | nil =>
    cases hr : (pumpSpec ts).2.1 with
    | nil => simp [hk, hr]
    | cons r0 rs => simp [hk, hr]
  | cons k0 k1 =>
    cases hr : (pumpSpec ts).2.1 with
    | nil => simp [hk, hr]
    | cons r0 rs => simp [hk, hr]

theorem driveN_one (fO fI : Nat) (S : TermState) (o : Option (List Nat)) (Sx : TermState)
    (h : recvInput fO fI S = some (o, Sx)) : driveN fO fI 1 S = some ([o], Sx) := by
  rw [driveN, h, Option.some_bind]
  rfl

theorem head_tail_reduce (k : List (List Nat)) :
    ([k.head?].reduceOption) ++ k.tail = k := by
  cases k with
  | nil => rfl
  | cons k0 k1 => simp [List.reduceOption_cons_of_some]

theorem driveN_run :
    ∀ (n : Nat) (ts : List Tok), ts.length ≤ n → WFt ts →
      ∀ (st : TermState) (l w : List Nat), l ++ w = wireOf ts →
      ∀ (fO fI : Nat), ts.length + 1 ≤ fO → l.length + w.length + 1 ≤ fI →
      ∃ (m : Nat) (os : List (Option (List Nat))),
        driveN fO fI m { st with pending := [], leftover := l, tape := List.map some w } =
          some (os, { st with
            pending := []
            leftover := []
            tape := []
            responses := st.responses ++ respsOf ts }) ∧
        os.reduceOption = keysOf ts := by
  intro n
  induction n with
  | zero =>
    intro ts hlen hwf st l w hlw fO fI hfO hfI
    have hts : ts = [] := List.eq_nil_of_length_eq_zero (Nat.le_zero.mp hlen)
    subst hts
    have hpump := recvInput_pump st [] hwf l w hlw fO fI hfO hfI
    refine ⟨1, [none], ?_, rfl⟩
    have h1 := driveN_one fO fI _ _ _ hpump
    exact h1
  | succ n ih =>
    intro ts hlen hwf st l w hlw fO fI hfO hfI
    rcases hps : pumpSpec ts with ⟨k, rr, ts2⟩
    have hpump := recvInput_pump st ts hwf l w hlw fO fI hfO hfI
    simp only [hps] at hpump
    have h1 := driveN_one fO fI _ _ _ hpump
    have h2 := driveN_pops fO fI k.tail
      { st with
        leftover := wireOf ts2
        tape := []
        responses := st.responses ++ (if rr.isEmpty then [] else [rr]) }
    have h12 := driveN_append fO fI 1 k.tail.length _ _ _ _ _ h1 h2
    -- bounds for the recursive call
    have hwlen : (wireOf ts).length = l.length + w.length := by
      rw [← hlw, List.length_append]
    have hwire2 : (wireOf ts2).length ≤ (wireOf ts).length := by
      have h3 := pumpSpec_wire_le ts
      rw [hps] at h3
      exact h3
    have hts2le : ts2.length ≤ ts.length ∧ ts2.length ≤ n := by
      by_cases hrr : rr = []
      · subst hrr
        have h4 := pumpSpec_resp_nil ts (by rw [hps])
        rw [hps] at h4
        simp only at h4
        rw [h4.1]
        simp
      · have h4 := pumpSpec_resp_cons ts (by rw [hps]; simpa using hrr)
        rw [hps] at h4
        simp only at h4
        omega
    have hwf2 : WFt ts2 := by
      have h4 := pumpSpec_wf ts hwf
      rw [hps] at h4
      exact h4
    have hfO2 : ts2.length + 1 ≤ fO := by
      have h5 := hts2le.1
      omega
    have hfI2 : (wireOf ts2).length + ([] : List Nat).length + 1 ≤ fI := by
      simp only [List.length_nil]
      omega
    have ihr := ih ts2 hts2le.2 hwf2
      { st with responses := st.responses ++ (if rr.isEmpty then [] else [rr]) }
      (wireOf ts2) [] (by rw [List.append_nil]) fO fI hfO2 hfI2
    obtain ⟨m3, os3, hdr3, hro3⟩ := ihr
    have hbig := driveN_append fO fI (1 + k.tail.length) m3 _ _ _ _ _ h12 hdr3
    refine ⟨1 + k.tail.length + m3, [k.head?] ++ (k.tail.map some ++ os3), ?_, ?_⟩
    · rw [hbig]
      have hresp : ((st.responses ++ (if rr.isEmpty then [] else [rr])) ++ respsOf ts2) =
          st.responses ++ respsOf ts := by
        by_cases hrr : rr = []
        · subst hrr
          have h4 := pumpSpec_resp_nil ts (by rw [hps])
          rw [hps] at h4
          simp only at h4
          obtain ⟨h41, h42⟩ := h4
          subst h41
          rw [h42]
          simp [respsOf]
        · have h4 := pumpSpec_resp_cons ts (by rw [hps]; simpa using hrr)
          rw [hps] at h4
          simp only at h4
          rw [h4.1]
          cases rr with
          | nil => exact absurd rfl hrr
          | cons r0 rs => simp [List.append_assoc]
      rw [show ((st.responses ++ (if rr.isEmpty then [] else [rr])) ++ respsOf ts2) =
          st.responses ++ respsOf ts from hresp]
      rfl
    · have hkeys : keysOf ts = k ++ keysOf ts2 := by
        have h4 := pumpSpec_keysOf ts
        rw [hps] at h4
        exact h4
      rw [List.reduceOption_append, List.reduceOption_append, reduceOption_map_some, hro3,
        hkeys, ← List.append_assoc, head_tail_reduce]

theorem keysOf_shape (ts : List Tok) (h : WFt ts) :
    ∀ r ∈ keysOf ts, isArrow r = true ∨ ∃ b, r = [b] ∧ b ≠ 27 := by
  induction ts with
  | nil => intro r hr; simp [keysOf] at hr
  | cons t ts ih =>
    have h0 : t.wfB = true ∧ WFt ts := by
      simpa [WFt, List.all_cons, Bool.and_eq_true] using h
    intro r hr
    rw [keysOf, List.mem_append] at hr
    rcases hr with hr | hr
    · cases t with
      | plain b =>
        right
        refine ⟨b, ?_, ?_⟩
        · simpa [Tok.keys] using hr
        · have hb := h0.1
          simp [Tok.wfB] at hb
          exact hb
      | frame cs tt =>
        rw [Tok.keys] at hr
        by_cases ha : isArrow (cs ++ [tt]) = true
        · rw [if_pos ha, List.mem_singleton] at hr
          exact Or.inl (hr ▸ ha)
        · rw [if_neg ha] at hr
          simp at hr
    · exact ih h0.2 r hr

/-- Claim C1: for every well-formed interleaving of plain keystroke
bytes and complete escape frames arriving on the wire, repeatedly
calling `recvInput` pops exactly the non-response tokens — each plain
byte as a singleton, each arrow-key frame as a single classified
token — in wire-arrival order, never yielding a response frame (every
popped token is an arrow token or a single non-escape byte), never
dropping a keystroke, and ending with wire and pending queue fully
drained (`peekInput` sees nothing) while the response frames, and only
they, sit in the responses queue. -/
theorem C1_input_order (ts : List Tok) (h : WFt ts) :
    ∃ (m : Nat) (os : List (Option (List Nat))) (stf : TermState),
      driveN (ts.length + 1) ((wireOf ts).length + 1) m
          { initTermState with tape := List.map some (wireOf ts) } =
        some (os, stf) ∧
      os.reduceOption = keysOf ts ∧
      (∀ r ∈ os.reduceOption, isArrow r = true ∨ ∃ b, r = [b] ∧ b ≠ 27) ∧
      stf.pending = [] ∧ peekInput stf = none ∧
      stf.leftover = [] ∧ stf.tape = [] ∧
      stf.responses = respsOf ts := by
  obtain ⟨m, os, hdr, hro⟩ := driveN_run ts.length ts le_rfl h initTermState [] (wireOf ts)
    rfl (ts.length + 1) ((wireOf ts).length + 1) le_rfl (by simp)
  refine ⟨m, os, _, hdr, hro, ?_, rfl, rfl, rfl, rfl, rfl⟩
  intro r hr
  exact keysOf_shape ts h r (hro ▸ hr)

theorem C1_input_order_witness :
    WFt [Tok.plain 97, Tok.plain 98, Tok.frame [91] 65, Tok.plain 99] ∧
    keysOf [Tok.plain 97, Tok.plain 98, Tok.frame [91] 65, Tok.plain 99] =
      [[97], [98], [91, 65], [99]] ∧
    isArrow [91, 65] = true ∧
    (∃ (m : Nat) (os : List (Option (List Nat))) (stf : TermState),
      driveN 5 ((wireOf [Tok.plain 97, Tok.plain 98, Tok.frame [91] 65, Tok.plain 99]).length + 1) m
          { initTermState with
              tape := List.map some (wireOf [Tok.plain 97, Tok.plain 98, Tok.frame [91] 65, Tok.plain 99]) } =
        some (os, stf) ∧
      os.reduceOption = keysOf [Tok.plain 97, Tok.plain 98, Tok.frame [91] 65, Tok.plain 99] ∧
      (∀ r ∈ os.reduceOption, isArrow r = true ∨ ∃ b, r = [b] ∧ b ≠ 27) ∧
      stf.pending = [] ∧ peekInput stf = none ∧
      stf.leftover = [] ∧ stf.tape = [] ∧
      stf.responses = respsOf [Tok.plain 97, Tok.plain 98, Tok.frame [91] 65, Tok.plain 99]) :=
  ⟨by unfold WFt; decide, by decide, by decide,
    C1_input_order [Tok.plain 97, Tok.plain 98, Tok.frame [91] 65, Tok.plain 99]
      (by unfold WFt; decide)⟩
